import Mathlib

/-!
Verification development for the docsapi crawl-and-index pipeline.

Each TypeScript function that a claim touches is embedded as a computable
Lean definition. JavaScript strings are modelled as Lean `String`
(lists of characters; for the ASCII inputs exercised here the UTF-16 unit
count and the character count agree). JavaScript `Map`/`Set` are modelled
as association lists / duplicate-free lists preserving insertion order.
Network fetches and filesystem reads are exogenous inputs, passed in as
explicit oracle functions. Floating point scores are modelled with `Rat`
(for the small integer ratios computed by the code the comparisons agree
with IEEE doubles).
-/

namespace DocsApi

/-! ## Generic string helpers (models of the JS string primitives used) -/

/-- Index of the first occurrence of `needle` in `haystack`, on character
lists; model of `String.prototype.indexOf` (which returns `-1`,
modelled as `none`). The empty needle matches at index 0, as in JS. -/
def listIndexOf? (needle : List Char) : List Char → Option Nat
  | [] => if needle = [] then some 0 else none
  | c :: rest =>
    if needle.isPrefixOf (c :: rest) then some 0
    else (listIndexOf? needle rest).map (· + 1)

/-- Model of `haystack.indexOf(needle)`. -/
def strIndexOf? (haystack needle : String) : Option Nat :=
  listIndexOf? needle.toList haystack.toList

/-- Model of `haystack.includes(needle)`. -/
def strContains (haystack needle : String) : Bool :=
  (strIndexOf? haystack needle).isSome

/-- Model of `s.startsWith(pre)`. -/
def strStartsWith (s pre : String) : Bool :=
  pre.toList.isPrefixOf s.toList

/-- Model of `s.endsWith(suf)`. -/
def strEndsWith (s suf : String) : Bool :=
  suf.toList.isSuffixOf s.toList

/-- ASCII lower-casing of one character, as `toLowerCase` acts on ASCII. -/
def lowerChar (c : Char) : Char := c.toLower

/-- Model of `s.toLowerCase()` (ASCII range; the repository compares
documentation titles and URL paths, which are ASCII). -/
def lowerStr (s : String) : String :=
  String.mk (s.toList.map lowerChar)

/-- JS `\s` for the characters that appear in Markdown text. -/
def isWsChar (c : Char) : Bool := c.isWhitespace

/-- Model of `s.trim()`. -/
def strTrim (s : String) : String :=
  String.mk ((s.toList.dropWhile isWsChar).reverse.dropWhile isWsChar |>.reverse)

/-- Character-list slice, model of `content.slice(start, stop)` for ASCII
content (`stop` already clamped by the caller). -/
def strSlice (s : String) (start stop : Nat) : String :=
  String.mk ((s.toList.drop start).take (stop - start))

/-- Model of `s.length` (UTF-16 units; character count for ASCII). -/
def strLen (s : String) : Nat := s.toList.length

/-- Lexicographic code-point comparison of character lists: the fixed
total preorder underlying the comparators the code passes to
`Array.prototype.sort` (any stable sort with a fixed total preorder has
a unique result, which is all the claims use). -/
def charListLe : List Char → List Char → Bool
  | [], _ => true
  | _ :: _, [] => false
  | a :: as, b :: bs =>
    if a.toNat = b.toNat then charListLe as bs else decide (a.toNat < b.toNat)

theorem charToNat_inj {a b : Char} (h : a.toNat = b.toNat) : a = b := by
  cases a; cases b
  simp only [Char.toNat] at h
  congr 1
  exact UInt32.ext h

theorem charListLe_total : ∀ as bs, charListLe as bs = true ∨ charListLe bs as = true := by
  intro as
  induction as with
  | nil => intro bs; left; rfl
  | cons a as ih =>
    intro bs
    cases bs with
    | nil => right; rfl
    | cons b bs =>
      by_cases h : a.toNat = b.toNat
      · rcases ih bs with h1 | h1
        · left; simp only [charListLe, if_pos h]; exact h1
        · right; simp only [charListLe, if_pos h.symm]; exact h1
      · have hne : ¬ b.toNat = a.toNat := fun hh => h hh.symm
        rcases Nat.lt_or_ge a.toNat b.toNat with hlt | hge
        · left; simp only [charListLe, if_neg h]; exact decide_eq_true hlt
        · right
          have hlt : b.toNat < a.toNat := lt_of_le_of_ne hge hne
          simp only [charListLe, if_neg hne]
          exact decide_eq_true hlt

theorem charListLe_trans :
    ∀ as bs cs, charListLe as bs = true → charListLe bs cs = true → charListLe as cs = true := by
  intro as
  induction as with
  | nil => intro bs cs _ _; rfl
  | cons a as ih =>
    intro bs cs h1 h2
    cases bs with
    | nil => simp [charListLe] at h1
    | cons b bs =>
      cases cs with
      | nil => simp [charListLe] at h2
      | cons c cs =>
        simp only [charListLe] at h1 h2 ⊢
        by_cases hab : a.toNat = b.toNat
        · rw [if_pos hab] at h1
          by_cases hbc : b.toNat = c.toNat
          · rw [if_pos hbc] at h2
            rw [if_pos (hab.trans hbc)]
            exact ih bs cs h1 h2
          · rw [if_neg hbc] at h2
            have hbc' : b.toNat < c.toNat := of_decide_eq_true h2
            have hac : a.toNat < c.toNat := hab ▸ hbc'
            rw [if_neg (Nat.ne_of_lt hac)]
            exact decide_eq_true hac
        · rw [if_neg hab] at h1
          have hab' : a.toNat < b.toNat := of_decide_eq_true h1
          by_cases hbc : b.toNat = c.toNat
          · rw [if_pos hbc] at h2
            have hac : a.toNat < c.toNat := hbc ▸ hab'
            rw [if_neg (Nat.ne_of_lt hac)]
            exact decide_eq_true hac
          · rw [if_neg hbc] at h2
            have hbc' : b.toNat < c.toNat := of_decide_eq_true h2
            have hac : a.toNat < c.toNat := Nat.lt_trans hab' hbc'
            rw [if_neg (Nat.ne_of_lt hac)]
            exact decide_eq_true hac

theorem charListLe_antisymm :
    ∀ as bs, charListLe as bs = true → charListLe bs as = true → as = bs := by
  intro as
  induction as with
  | nil =>
    intro bs _ h2
    cases bs with
    | nil => rfl
    | cons b bs => simp [charListLe] at h2
  | cons a as ih =>
    intro bs h1 h2
    cases bs with
    | nil => simp [charListLe] at h1
    | cons b bs =>
      simp only [charListLe] at h1 h2
      by_cases hab : a.toNat = b.toNat
      · rw [if_pos hab] at h1
        rw [if_pos hab.symm] at h2
        rw [charToNat_inj hab, ih bs h1 h2]
      · rw [if_neg hab] at h1
        rw [if_neg (fun hh => hab hh.symm)] at h2
        have := of_decide_eq_true h1
        have := of_decide_eq_true h2
        omega

/-- The string form of the comparator; `strLeB a b` is
"comparator(a, b) ≤ 0" for a code-point comparator. -/
def strLeB (a b : String) : Bool := charListLe a.toList b.toList

theorem strLeB_antisymm {a b : String} (h1 : strLeB a b = true) (h2 : strLeB b a = true) :
    a = b := by
  have h := charListLe_antisymm a.toList b.toList h1 h2
  cases a; cases b
  exact congrArg String.mk h


/-- Replace each maximal run of characters satisfying `p` by the single
character `rep` (the `inRun` flag tracks being inside a run): the model
of `.replace(/X+/g, rep)` for a character class `X`. -/
def collapseRunsAux (p : Char → Bool) (rep : Char) : Bool → List Char → List Char
  | _, [] => []
  | inRun, c :: rest =>
    if p c then
      if inRun then collapseRunsAux p rep true rest
      else rep :: collapseRunsAux p rep true rest
    else c :: collapseRunsAux p rep false rest

/-- Collapse whitespace runs to a single space: model of
`.replace(/\s+/g, " ")`. -/
def collapseWs (l : List Char) : List Char := collapseRunsAux isWsChar ' ' false l

/-! ## A small model of the WHATWG `URL` class

The repository leans on the runtime's `new URL(...)` for parsing,
normalization and relative resolution. We model the fragment of its
behaviour the embedded functions rely on: absolute `scheme://host/path?q#h`
parsing (scheme and host lowercased, empty path becoming "/"), fragment /
search splitting, and resolution of absolute-path, fragment, query and
relative references against a base (without dot-segment normalization or
percent-encoding, which the claimed properties never exercise). -/

structure Url where
  scheme : String
  host : String
  pathname : String
  search : String
  hash : String
deriving DecidableEq, Repr

def isSchemeChar (c : Char) : Bool := c.isAlphanum || c = '+' || c = '-' || c = '.'

def parseUrlChars (cs : List Char) : Option Url :=
  match listIndexOf? [':', '/', '/'] cs with
  | none => none
  | some i =>
    let schemeChars := cs.take i
    match schemeChars with
    | [] => none
    | c0 :: _ =>
      if ¬ c0.isAlpha ∨ ¬ schemeChars.all isSchemeChar then none
      else
        let rest := cs.drop (i + 3)
        let hostChars := rest.takeWhile (fun c => ¬ (c = '/' ∨ c = '?' ∨ c = '#'))
        if hostChars = [] then none
        else
          let afterHost := rest.drop hostChars.length
          let beforeHash := afterHost.takeWhile (· ≠ '#')
          let hashChars := afterHost.drop beforeHash.length
          let pathChars := beforeHash.takeWhile (· ≠ '?')
          let searchChars := beforeHash.drop pathChars.length
          some { scheme := String.mk (schemeChars.map lowerChar) ++ ":"
                 host := String.mk (hostChars.map lowerChar)
                 pathname := if pathChars = [] then "/" else String.mk pathChars
                 search := String.mk searchChars
                 hash := String.mk hashChars }

def parseUrl (s : String) : Option Url := parseUrlChars s.toList

/-- `URL.prototype.toString` / `href` for the modelled fragment. -/
def Url.toStr (u : Url) : String :=
  u.scheme ++ "//" ++ u.host ++ u.pathname ++ u.search ++ u.hash

/-- Split a path-query-fragment reference into the three `Url` fields. -/
def applyRef (base : Url) (cs : List Char) : Url :=
  let beforeHash := cs.takeWhile (· ≠ '#')
  let hashChars := cs.drop beforeHash.length
  let pathChars := beforeHash.takeWhile (· ≠ '?')
  let searchChars := beforeHash.drop pathChars.length
  { base with
    pathname := if pathChars = [] then "/" else String.mk pathChars
    search := String.mk searchChars
    hash := String.mk hashChars }

/-- The directory part of a pathname: everything up to and including the
last `/`. -/
def dirChars (pathname : String) : List Char :=
  (pathname.toList.reverse.dropWhile (· ≠ '/')).reverse

/-- Model of `new URL(rel, base)` for a well-formed `base`. -/
def resolveAgainst (base : Url) (rel : String) : Url :=
  match parseUrl rel with
  | some u => u
  | none =>
    match rel.toList with
    | [] => base
    | '#' :: _ => { base with hash := rel }
    | '?' :: _ =>
      let q := rel.toList.takeWhile (· ≠ '#')
      { base with search := String.mk q, hash := String.mk (rel.toList.drop q.length) }
    | '/' :: _ => applyRef base rel.toList
    | _ => applyRef base (dirChars base.pathname ++ rel.toList)

/-- Model of `new URL(value, base).toString()`; `none` when the base does
not parse (the constructor throws). -/
def resolveUrlStr (value base : String) : Option String :=
  (parseUrl base).map fun b => (resolveAgainst b value).toStr

/-- Model of `normalizeUrl` in `src/src/lib/docset/preload.ts`: parse,
clear the fragment, re-serialize (`none` models the throw on an
unparseable URL). -/
def normalizeUrl? (url : String) : Option String :=
  (parseUrl url).map fun u => ({ u with hash := "" } : Url).toStr

/-! ## LocalSearchEngine (unnamed/part_006: searchLocalDocumentation,
makeSnippet, computeSearchScore) -/

/-- Snippet around a content match: model of `makeSnippet` in
`part_006` (radius 110, ellipses when clipped, whitespace collapsed,
trimmed). -/
def makeSnippet (content : String) (index queryLength : Nat) : String :=
  let radius := 110
  let start := index - radius
  let stop := min (strLen content) (index + queryLength + radius)
  let pre := if start > 0 then "..." else ""
  let suf := if stop < strLen content then "..." else ""
  pre ++ strTrim (String.mk (collapseWs (strSlice content start stop).toList)) ++ suf

/-- Model of `computeSearchScore` in `part_006`. `contentIndex` is the
result of `indexOf` on the lowercased content (`-1` when absent), hence
an `Int`. `query` arrives already lowercased by the caller. -/
def computeSearchScore (title query : String) (contentIndex : Int) : Int :=
  let normalizedTitle := lowerStr title
  let s1 : Int := if normalizedTitle = query then 120 else 0
  let s2 : Int := if strStartsWith normalizedTitle query then 80 else 0
  let s3 : Int := if strContains normalizedTitle query then 40 else 0
  let s4 : Int :=
    if 0 ≤ contentIndex then 20 + max 0 (20 - contentIndex / 400) else 0
  s1 + s2 + s3 + s4

theorem listIndexOf?_self_isSome (l : List Char) : (listIndexOf? l l).isSome := by
  cases l with
  | nil => simp [listIndexOf?]
  | cons c rest =>
    simp only [listIndexOf?]
    rw [if_pos]
    · rfl
    · exact (List.isPrefixOf_iff_prefix).2 (List.prefix_refl _)

theorem strContains_self (s : String) : strContains s s = true := by
  simpa [strContains, strIndexOf?] using listIndexOf?_self_isSome s.toList

theorem strStartsWith_self (s : String) : strStartsWith s s = true :=
  (List.isPrefixOf_iff_prefix).2 (List.prefix_refl _)

/-- C9: the score components of `computeSearchScore` are cumulative, not
exclusive: when the lowercased title equals the (lowercased) query the
title alone contributes 120 + 80 + 40 = 240; and a content match adds
exactly `20 + max 0 (20 - ⌊i/400⌋)`, which is at most 40. -/
theorem computeSearchScore_cumulative_and_capped :
    (∀ title query : String, lowerStr title = query →
      computeSearchScore title query (-1) = 240) ∧
    (∀ (title query : String) (i : Int), 0 ≤ i →
      computeSearchScore title query i
        = computeSearchScore title query (-1) + (20 + max 0 (20 - i / 400)) ∧
      20 + max 0 (20 - i / 400) ≤ 40) := by
  constructor
  · intro title query h
    have h1 := strStartsWith_self query
    have h2 := strContains_self query
    simp [computeSearchScore, h, h1, h2]
  · intro title query i hi
    have hneg : ¬ (0 : Int) ≤ (-1 : Int) := by norm_num
    constructor
    · simp only [computeSearchScore]
      rw [if_pos hi, if_neg hneg]
      ring
    · have h400 : (0 : Int) ≤ i / 400 := Int.ediv_nonneg hi (by norm_num)
      have : max 0 (20 - i / 400) ≤ 20 := by omega
      omega

/-- Witness for C9 at a concrete input. -/
theorem computeSearchScore_cumulative_and_capped_witness :
    computeSearchScore "API" "api" (-1) = 240 ∧
    computeSearchScore "API" "api" 800
        = computeSearchScore "API" "api" (-1) + (20 + max 0 (20 - (800 : Int) / 400)) := by
  refine ⟨computeSearchScore_cumulative_and_capped.1 "API" "api" (by decide), ?_⟩
  exact (computeSearchScore_cumulative_and_capped.2 "API" "api" 800 (by norm_num)).1

/-- `LocalSiteIndexDoc` of `part_006`. -/
structure LocalSiteIndexDoc where
  id : String
  path : String
  url : String
  docsetType : String
  title : String
  description : String
  contentFile : String
  indexFile : String
deriving DecidableEq, Repr

/-- `LocalSiteIndex` of `part_006` (the per-slug `site-index.json` shape
read by the search engine). -/
structure LocalSiteIndex where
  baseUrl : String
  docs : List LocalSiteIndexDoc
deriving DecidableEq, Repr

/-- `LocalSearchResult` of `part_006`. -/
structure LocalSearchResult where
  slug : String
  baseUrl : String
  docId : String
  title : String
  path : String
  url : String
  docsetType : String
  contentFile : String
  titleMatch : Bool
  contentMatch : Bool
  snippet : String
  score : Int
deriving DecidableEq, Repr

/-- The persisted local store as the search engine sees it: the per-slug
site indexes (in `listLocalSlugs` order) and the Markdown content files
(`readLocalDocContent`, modelled as a total lookup — the claims concern
stores whose listed content files exist). -/
structure LocalStore where
  sites : List (String × LocalSiteIndex)
  contents : String → String → String

/-- Loop body of `searchLocalDocumentation` for one document: decides
title/content match, builds the snippet and score, and emits a result
when either matched. `query` is the already-trimmed query string. -/
def searchDocHit (slug siteBaseUrl : String) (doc : LocalSiteIndexDoc)
    (content query : String) : Option LocalSearchResult :=
  let normalizedQuery := lowerStr query
  let normalizedTitle := lowerStr doc.title
  let titleMatch := strContains normalizedTitle normalizedQuery
  let normalizedContent := lowerStr content
  let contentIndex? := strIndexOf? normalizedContent normalizedQuery
  let contentMatch := contentIndex?.isSome
  if !titleMatch && !contentMatch then none
  else
    let snippet :=
      match contentIndex? with
      | some i => makeSnippet content i (strLen query)
      | none =>
        "Title match: " ++
          (if doc.title ≠ "" then doc.title else if doc.path ≠ "" then doc.path else doc.url)
    let contentIndexInt : Int := match contentIndex? with | some i => (i : Int) | none => -1
    some
      { slug := slug
        baseUrl := siteBaseUrl
        docId := doc.id
        title := doc.title
        path := doc.path
        url := doc.url
        docsetType := doc.docsetType
        contentFile := doc.contentFile
        titleMatch := titleMatch
        contentMatch := contentMatch
        snippet := snippet
        score := computeSearchScore doc.title normalizedQuery contentIndexInt }

/-- All results accumulated by the site/doc double loop of
`searchLocalDocumentation`, before sorting and truncation. -/
def collectResults (store : LocalStore) (query : String) : List LocalSearchResult :=
  store.sites.flatMap fun p =>
    p.2.docs.filterMap fun doc =>
      searchDocHit p.1 p.2.baseUrl doc (store.contents p.1 doc.contentFile) query

/-- The JS sort comparator of `searchLocalDocumentation` as a total
preorder: score descending, then slug ascending, then title ascending. -/
def searchLe (a b : LocalSearchResult) : Prop :=
  b.score < a.score ∨
    (a.score = b.score ∧ (a.slug < b.slug ∨ (a.slug = b.slug ∧ a.title ≤ b.title)))

instance : DecidableRel searchLe := fun a b => by
  unfold searchLe; infer_instance

/-- Response shape of `searchLocalDocumentation`. -/
structure SearchResponse where
  query : String
  totalResults : Nat
  searchedSlugs : List String
  results : List LocalSearchResult
deriving DecidableEq, Repr

/-- Model of `searchLocalDocumentation` in `part_006`: trims the query,
clamps the limit to [1,200] (default 50), scans every in-scope document,
sorts by (score desc, slug asc, title asc) with a stable sort, and
truncates to the limit after full scoring. -/
def searchLocalDocumentation (store : LocalStore) (rawQuery : String)
    (slugOpt : Option String) (limitOpt : Option Int) : SearchResponse :=
  let query := strTrim rawQuery
  if query = "" then
    { query := query, totalResults := 0, searchedSlugs := [], results := [] }
  else
    let limit : Nat :=
      match limitOpt with
      | some l => (max 1 (min 200 l)).toNat
      | none => 50
    let scopedStore :=
      match slugOpt with
      | some s =>
        if strTrim s ≠ "" then { store with sites := store.sites.filter (·.1 = strTrim s) }
        else store
      | none => store
    let results := collectResults scopedStore query
    let sorted := List.insertionSort searchLe results
    { query := query
      totalResults := results.length
      searchedSlugs := scopedStore.sites.map (·.1)
      results := sorted.take limit }

theorem mem_collectResults_of_hit {store : LocalStore} {query slug : String}
    {si : LocalSiteIndex} {doc : LocalSiteIndexDoc} {hit : LocalSearchResult}
    (hsite : (slug, si) ∈ store.sites) (hdoc : doc ∈ si.docs)
    (h : searchDocHit slug si.baseUrl doc (store.contents slug doc.contentFile) query = some hit) :
    hit ∈ collectResults store query := by
  unfold collectResults
  refine List.mem_flatMap.2 ⟨(slug, si), hsite, ?_⟩
  exact List.mem_filterMap.2 ⟨doc, hdoc, h⟩

theorem searchDocHit_titleOnly (slug siteBaseUrl : String) (doc : LocalSiteIndexDoc)
    (content query : String)
    (htitle : strContains (lowerStr doc.title) (lowerStr query) = true)
    (hci : strIndexOf? (lowerStr content) (lowerStr query) = none) :
    searchDocHit slug siteBaseUrl doc content query =
      some
        { slug := slug
          baseUrl := siteBaseUrl
          docId := doc.id
          title := doc.title
          path := doc.path
          url := doc.url
          docsetType := doc.docsetType
          contentFile := doc.contentFile
          titleMatch := true
          contentMatch := false
          snippet := "Title match: " ++
            (if doc.title ≠ "" then doc.title else if doc.path ≠ "" then doc.path else doc.url)
          score := computeSearchScore doc.title (lowerStr query) (-1) } := by
  unfold searchDocHit
  simp only [hci, htitle]
  rfl

theorem searchDocHit_contentMatch (slug siteBaseUrl : String) (doc : LocalSiteIndexDoc)
    (content query : String) (i : Nat)
    (hci : strIndexOf? (lowerStr content) (lowerStr query) = some i) :
    searchDocHit slug siteBaseUrl doc content query =
      some
        { slug := slug
          baseUrl := siteBaseUrl
          docId := doc.id
          title := doc.title
          path := doc.path
          url := doc.url
          docsetType := doc.docsetType
          contentFile := doc.contentFile
          titleMatch := strContains (lowerStr doc.title) (lowerStr query)
          contentMatch := true
          snippet := makeSnippet content i (strLen query)
          score := computeSearchScore doc.title (lowerStr query) (i : Int) } := by
  unfold searchDocHit
  simp only [hci]
  have : (some i).isSome = true := rfl
  simp only [this, Bool.not_true, Bool.and_false]
  rfl

/-- C8: a document whose title matches the (case-insensitive) query but
whose content does not is emitted with the "Title match:" placeholder
snippet; a document whose content matches at index `i` is emitted with
the ±110-character window `makeSnippet content i (query length)`. -/
theorem search_snippet_placeholder_or_window (store : LocalStore) (query slug : String)
    (si : LocalSiteIndex) (doc : LocalSiteIndexDoc)
    (hsite : (slug, si) ∈ store.sites) (hdoc : doc ∈ si.docs) :
    (strContains (lowerStr doc.title) (lowerStr query) = true →
      strContains (lowerStr (store.contents slug doc.contentFile)) (lowerStr query) = false →
      ∃ hit ∈ collectResults store query, hit.docId = doc.id ∧ hit.slug = slug ∧
        hit.snippet = "Title match: " ++
          (if doc.title ≠ "" then doc.title else if doc.path ≠ "" then doc.path else doc.url)) ∧
    (∀ i, strIndexOf? (lowerStr (store.contents slug doc.contentFile)) (lowerStr query) = some i →
      ∃ hit ∈ collectResults store query, hit.docId = doc.id ∧ hit.slug = slug ∧
        hit.snippet = makeSnippet (store.contents slug doc.contentFile) i (strLen query)) := by
  constructor
  · intro htitle hcontent
    have hci : strIndexOf? (lowerStr (store.contents slug doc.contentFile)) (lowerStr query) = none := by
      have := hcontent
      unfold strContains at this
      cases h : strIndexOf? (lowerStr (store.contents slug doc.contentFile)) (lowerStr query) with
      | none => rfl
      | some i => rw [h] at this; simp at this
    exact ⟨_, mem_collectResults_of_hit hsite hdoc
      (searchDocHit_titleOnly slug si.baseUrl doc _ query htitle hci), rfl, rfl, rfl⟩
  · intro i hi
    exact ⟨_, mem_collectResults_of_hit hsite hdoc
      (searchDocHit_contentMatch slug si.baseUrl doc _ query i hi), rfl, rfl, rfl⟩

/-- Witness for C8: a one-site store where "guide" matches only the title
of one document and matches the content of another. -/
theorem search_snippet_placeholder_or_window_witness :
    ∃ hit ∈ collectResults
        { sites := [("example-com",
            { baseUrl := "https://example.com"
              docs := [{ id := "doc-00001", path := "/guide", url := "https://example.com/guide",
                         docsetType := "generic", title := "Guide", description := "",
                         contentFile := "guide.md", indexFile := "guide.index.json" }] })]
          contents := fun _ _ => "Welcome to the manual." } "guide",
      hit.docId = "doc-00001" ∧ hit.slug = "example-com" ∧
        hit.snippet = "Title match: " ++
          (if ("Guide" : String) ≠ "" then "Guide" else if ("/guide" : String) ≠ "" then "/guide" else "https://example.com/guide") := by
  exact (search_snippet_placeholder_or_window
      { sites := [("example-com",
          { baseUrl := "https://example.com"
            docs := [{ id := "doc-00001", path := "/guide", url := "https://example.com/guide",
                       docsetType := "generic", title := "Guide", description := "",
                       contentFile := "guide.md", indexFile := "guide.index.json" }] })]
        contents := fun _ _ => "Welcome to the manual." } "guide" "example-com"
      { baseUrl := "https://example.com"
        docs := [{ id := "doc-00001", path := "/guide", url := "https://example.com/guide",
                   docsetType := "generic", title := "Guide", description := "",
                   contentFile := "guide.md", indexFile := "guide.index.json" }] }
      { id := "doc-00001", path := "/guide", url := "https://example.com/guide",
        docsetType := "generic", title := "Guide", description := "",
        contentFile := "guide.md", indexFile := "guide.index.json" }
      (by simp) (by simp)).1 (by decide) (by decide)

/-! ## HostScheduler (src/src/lib/hig/fetch.ts: acquireHost / fetchWithRateLimit)

`acquireHost` chains each acquisition for a host onto that host's promise
chain (`hostLocks`), so the chain's continuations run one after another in
call (FIFO) order. `hostLastRequestAt` maps each host to the pacing clock.
We model time as a `Nat` millisecond clock: each acquisition's continuation
begins at some clock time `bStart` (which, because the continuation is
chained after the previous acquisition recorded its timestamp on a
monotone clock, is at least the previous record), computes
`waitFor = max 0 (minIntervalMs - (bStart - last))`, sleeps that long, and
records `Date.now()` — the wake-up time plus a nonnegative scheduler delay
`eps` (`setTimeout` never fires early). -/

/-- The `hostLastRequestAt` timestamp recorded by one acquisition. -/
def acquireRecord (minIntervalMs last bStart eps : Nat) : Nat :=
  bStart + (minIntervalMs - (bStart - last)) + eps

/-- Record times of one host's acquisition chain, in FIFO chain order;
each entry of the schedule is `(bStart, eps)`. -/
def hostRecordTimes (minIntervalMs : Nat) : Nat → List (Nat × Nat) → List Nat
  | _, [] => []
  | last, (b, e) :: rest =>
    let r := acquireRecord minIntervalMs last b e
    r :: hostRecordTimes minIntervalMs r rest

/-- A schedule is valid when each continuation begins no earlier than the
previous record for that host (guaranteed by the promise chain plus the
monotone clock). -/
def validScheduleB (minIntervalMs : Nat) (last : Nat) : List (Nat × Nat) → Bool
  | [] => true
  | (b, e) :: rest =>
    decide (last ≤ b) && validScheduleB minIntervalMs (acquireRecord minIntervalMs last b e) rest

/-- One call to `acquireHost`: the host keyed by `getHostKey`, the clock
time its gated continuation starts, and its scheduler delay. -/
structure AcquireEvent where
  host : String
  bStart : Nat
  eps : Nat

/-- The whole scheduler state machine: process acquisitions in global
chain order, threading the per-host `hostLastRequestAt` map. -/
def runScheduler (minIntervalMs : Nat) (lasts : String → Nat) :
    List AcquireEvent → List (String × Nat)
  | [] => []
  | e :: rest =>
    let r := acquireRecord minIntervalMs (lasts e.host) e.bStart e.eps
    (e.host, r) :: runScheduler minIntervalMs (Function.update lasts e.host r) rest

/-- The sub-schedule of the events for host `h`, in order. -/
def projectEvents (h : String) (evs : List AcquireEvent) : List (Nat × Nat) :=
  (evs.filter (fun e => e.host = h)).map (fun e => (e.bStart, e.eps))

/-- The record times the scheduler produced for host `h`, in order. -/
def recordsOf (h : String) (out : List (String × Nat)) : List Nat :=
  out.filterMap (fun p => if p.1 = h then some p.2 else none)

theorem runScheduler_project (m : Nat) (h : String) :
    ∀ (evs : List AcquireEvent) (lasts : String → Nat),
      recordsOf h (runScheduler m lasts evs)
        = hostRecordTimes m (lasts h) (projectEvents h evs) := by
  intro evs
  induction evs with
  | nil => intro lasts; rfl
  | cons e rest ih =>
    intro lasts
    by_cases he : e.host = h
    · subst he
      have hupd : Function.update lasts e.host (acquireRecord m (lasts e.host) e.bStart e.eps) e.host
          = acquireRecord m (lasts e.host) e.bStart e.eps := Function.update_same _ _ _
      have h2 := ih (Function.update lasts e.host (acquireRecord m (lasts e.host) e.bStart e.eps))
      rw [hupd] at h2
      simp only [recordsOf, projectEvents] at h2
      simp only [runScheduler, recordsOf, projectEvents, hostRecordTimes, List.filterMap_cons,
        List.filter_cons]
      simp [h2]
    · have hupd : Function.update lasts e.host (acquireRecord m (lasts e.host) e.bStart e.eps) h
          = lasts h := Function.update_noteq (fun hh => he hh.symm) _ _
      have h2 := ih (Function.update lasts e.host (acquireRecord m (lasts e.host) e.bStart e.eps))
      rw [hupd] at h2
      simp only [recordsOf, projectEvents] at h2
      simp only [runScheduler, recordsOf, projectEvents, List.filterMap_cons, List.filter_cons, he]
      simp [he, h2]

theorem hostRecordTimes_chain (m : Nat) :
    ∀ (sch : List (Nat × Nat)) (last : Nat), validScheduleB m last sch = true →
      List.Chain' (fun a b => a + m ≤ b) (last :: hostRecordTimes m last sch) := by
  intro sch
  induction sch with
  | nil => intro last _; simp [hostRecordTimes]
  | cons p rest ih =>
    intro last hvalid
    obtain ⟨b, e⟩ := p
    simp only [validScheduleB, Bool.and_eq_true, decide_eq_true_eq] at hvalid
    obtain ⟨hle, hrest⟩ := hvalid
    simp only [hostRecordTimes]
    rw [List.chain'_cons]
    constructor
    · unfold acquireRecord; omega
    · exact ih (acquireRecord m last b e) hrest

/-- C3: consecutive acquisitions for a host `h` are separated by at least
`minIntervalMs` (every recorded pacing timestamp exceeds the previous one
by at least `m`), the records for `h` are exactly the FIFO single-host
chain over `h`'s own events, and they are independent of every other
host's events (they coincide with running `h`'s sub-schedule alone). -/
theorem hostScheduler_paces_and_isolates (m : Nat) (lasts : String → Nat)
    (evs : List AcquireEvent) (h : String)
    (hvalid : validScheduleB m (lasts h) (projectEvents h evs) = true) :
    recordsOf h (runScheduler m lasts evs) = hostRecordTimes m (lasts h) (projectEvents h evs) ∧
    List.Chain' (fun a b => a + m ≤ b) (lasts h :: recordsOf h (runScheduler m lasts evs)) := by
  refine ⟨runScheduler_project m h evs lasts, ?_⟩
  rw [runScheduler_project m h evs lasts]
  exact hostRecordTimes_chain m (projectEvents h evs) (lasts h) hvalid

/-- Witness for C3: two hosts interleaved; host "a" is paced at 300ms
independently of host "b". -/
theorem hostScheduler_paces_and_isolates_witness :
    recordsOf "a" (runScheduler 300 (fun _ => 0)
        [⟨"a", 1000, 0⟩, ⟨"b", 1001, 0⟩, ⟨"a", 1002, 5⟩])
      = hostRecordTimes 300 0 (projectEvents "a"
        [⟨"a", 1000, 0⟩, ⟨"b", 1001, 0⟩, ⟨"a", 1002, 5⟩]) ∧
    List.Chain' (fun a b => a + 300 ≤ b)
      (0 :: recordsOf "a" (runScheduler 300 (fun _ => 0)
        [⟨"a", 1000, 0⟩, ⟨"b", 1001, 0⟩, ⟨"a", 1002, 5⟩])) :=
  hostScheduler_paces_and_isolates 300 (fun _ => 0)
    [⟨"a", 1000, 0⟩, ⟨"b", 1001, 0⟩, ⟨"a", 1002, 5⟩] "a" (by decide)

/-! ## SiteIndexBuilder pure core (src/src/lib/preload.ts) -/

structure PreloadItem where
  path : String
  url : String
  docsetType : String
  content : String
deriving DecidableEq, Repr

structure PreloadDocSummary where
  id : String
  path : String
  url : String
  docsetType : String
  title : String
  description : String
  contentFile : String
  indexFile : String
deriving DecidableEq, Repr

structure PreloadLinkIndexEntry where
  title : String
  url : String
  description : String
  localDocId : Option String
deriving DecidableEq, Repr

structure PreloadDocHeading where
  level : Nat
  text : String
deriving DecidableEq, Repr

/-- `PreloadSuggestedDoc`; `overlapScore` is a `Rat` standing for the
IEEE double the code computes (an exact small-integer ratio, rounded to
three decimals for storage). -/
structure PreloadSuggestedDoc where
  docId : String
  title : String
  path : String
  url : String
  contentFile : String
  indexFile : String
  overlapScore : Rat
  sharedTerms : Nat
deriving DecidableEq, Repr

/-- `PreloadDocIndex`; `suggested := none` models an absent `suggested`
key, `some []` an empty array. -/
structure PreloadDocIndex where
  doc : PreloadDocSummary
  headings : List PreloadDocHeading
  links : List PreloadLinkIndexEntry
  suggested : Option (List PreloadSuggestedDoc)
deriving DecidableEq, Repr

structure PreloadSiteIndex where
  version : Nat
  generatedAt : String
  baseUrl : String
  totalDocs : Nat
  docs : List PreloadDocSummary
deriving DecidableEq, Repr

/-- `PreloadBundle`; `docIndexes` (a JS object keyed by doc id) is an
association list in insertion order. -/
structure PreloadBundle where
  siteIndex : PreloadSiteIndex
  docIndexes : List (String × PreloadDocIndex)
  docs : List PreloadItem
deriving DecidableEq, Repr

/-- Collapse runs of `-` to a single `-`: the `.replace(/[^a-z0-9]+/g, "-")`
run-collapsing once every excluded character has been mapped to `-`. -/
def collapseDashes (l : List Char) : List Char := collapseRunsAux (· = '-') '-' false l

/-- Common core of the two slugifiers: lowercase, map non-`[a-z0-9]` runs
to single hyphens, strip leading/trailing hyphens. -/
def slugCore (value : String) : String :=
  let lowered := value.toList.map lowerChar
  let dashed := lowered.map fun c =>
    if ('a' ≤ c ∧ c ≤ 'z') ∨ ('0' ≤ c ∧ c ≤ '9') then c else '-'
  let collapsed := collapseDashes dashed
  String.mk (((collapsed.dropWhile (· = '-')).reverse.dropWhile (· = '-')).reverse)

/-- `slugifyFileBase` of `preload.ts` (empty slug falls back to
"document"). -/
def slugifyFileBase (value : String) : String :=
  let s := slugCore value
  if s = "" then "document" else s

/-- `cleanText` of `preload.ts`: drop backticks and asterisks, collapse
whitespace, trim. (`Char.ofNat 96` is the backtick.) -/
def cleanText (value : String) : String :=
  strTrim (String.mk (collapseWs
    (value.toList.filter fun c => ¬ (c = Char.ofNat 96 ∨ c = '*'))))

/-- Split on a newline character, keeping empty segments, as
`content.split("\n")` does. -/
def splitOnAny (seps : List Char) : List Char → List (List Char)
  | [] => [[]]
  | c :: rest =>
    let r := splitOnAny seps rest
    if c ∈ seps then [] :: r
    else
      match r with
      | h :: t => (c :: h) :: t
      | [] => [[c]]

def strLines (s : String) : List String :=
  (splitOnAny ['\n'] s.toList).map String.mk

/-- The capture group of `/^#\s+(.+)$/` on one line, including the
backtracking behaviour when everything after the whitespace is blank
(the greedy `\s+` gives one whitespace character back to `(.+)`). -/
def parseTitleCapture : List Char → Option (List Char)
  | '#' :: rest =>
    let ws := rest.takeWhile isWsChar
    let body := rest.drop ws.length
    if ws = [] then none
    else if body ≠ [] then some body
    else if 2 ≤ ws.length then (ws.getLast?).map ([·])
    else none
  | _ => none

/-- `extractMarkdownTitle` of `preload.ts`. -/
def extractMarkdownTitle (content : String) : String :=
  match (strLines content).findSome? (fun l => parseTitleCapture l.toList) with
  | some cap => cleanText (String.mk cap)
  | none => ""

/-- The captures of `/^(#{1,6})\s+(.+)$/` on one line. -/
def parseHeadingCapture (line : List Char) : Option (Nat × List Char) :=
  let hashes := line.takeWhile (· = '#')
  let n := hashes.length
  if n = 0 ∨ 6 < n then none
  else
    let rest := line.drop n
    let ws := rest.takeWhile isWsChar
    let body := rest.drop ws.length
    if ws = [] then none
    else if body ≠ [] then some (n, body)
    else if 2 ≤ ws.length then (ws.getLast?).map (fun c => (n, [c]))
    else none

/-- `extractMarkdownHeadings` of `preload.ts`. -/
def extractMarkdownHeadings (content : String) : List PreloadDocHeading :=
  (strLines content).filterMap fun l =>
    (parseHeadingCapture l.toList).map fun p => { level := p.1, text := cleanText (String.mk p.2) }

def strTake (s : String) (n : Nat) : String := String.mk (s.toList.take n)

/-- `extractMarkdownDescription` of `preload.ts`: first trimmed line that
is nonempty and starts with none of `#`, `---`, `*[`, cleaned and cut to
280 characters. -/
def extractMarkdownDescription (content : String) : String :=
  ((strLines content).findSome? fun line =>
    let trimmed := strTrim line
    if trimmed = "" then none
    else if strStartsWith trimmed "#" then none
    else if strStartsWith trimmed "---" then none
    else if strStartsWith trimmed "*[" then none
    else some (strTake (cleanText trimmed) 280)).getD ""

/-- One attempt to read `[label](target)` right after an opening `[`:
the label is everything up to the first `]` (nonempty, per `[^\]]+`),
which must be followed by `](`, then the target up to the first `)`
(nonempty, per `[^)]+`), closed by `)`. -/
def parseLinkBody (rest : List Char) : Option (List Char × List Char × List Char) :=
  if rest.takeWhile (· ≠ ']') = [] then none
  else
    match rest.drop (rest.takeWhile (· ≠ ']')).length with
    | ']' :: '(' :: rest2 =>
      if rest2.takeWhile (· ≠ ')') = [] then none
      else
        match rest2.drop (rest2.takeWhile (· ≠ ')')).length with
        | ')' :: remaining =>
          some (rest.takeWhile (· ≠ ']'), rest2.takeWhile (· ≠ ')'), remaining)
        | _ => none
    | _ => none

theorem parseLinkBody_remaining_lt (rest l t rem : List Char)
    (h : parseLinkBody rest = some (l, t, rem)) : rem.length < rest.length := by
  unfold parseLinkBody at h
  split at h
  · simp at h
  · next hne =>
    split at h
    · next rest2 heq =>
      split at h
      · simp at h
      · next hne2 =>
        split at h
        · next remaining heq2 =>
          simp only [Option.some.injEq, Prod.mk.injEq] at h
          obtain ⟨-, -, h3⟩ := h
          subst h3
          have e1 := congrArg List.length heq
          have e2 := congrArg List.length heq2
          simp only [List.length_drop, List.length_cons] at e1 e2
          have hl : 0 < (rest.takeWhile (· ≠ ']')).length := List.length_pos.2 hne
          have ht : 0 < (rest2.takeWhile (· ≠ ')')).length := List.length_pos.2 hne2
          omega
        · simp at h
    · simp at h

/-- Fuelled scan for `[label](target)` matches; `parseLinkBody_remaining_lt`
shows every recursive call strictly shrinks the list, so fuel equal to
the list length always suffices. -/
def scanLinksFuel : Nat → List Char → List (List Char × List Char)
  | 0, _ => []
  | fuel + 1, cs =>
    match cs with
    | [] => []
    | '[' :: rest =>
      match parseLinkBody rest with
      | some (label, target, remaining) => (label, target) :: scanLinksFuel fuel remaining
      | none => scanLinksFuel fuel rest
    | _ :: rest => scanLinksFuel fuel rest

/-- All `[label](target)` matches of `/\[([^\]]+)\]\(([^)]+)\)/g` in
order, as the raw (label, target) capture pairs. On a failed match the
scan resumes right after the `[`, as the regex engine does. -/
def scanLinks (cs : List Char) : List (List Char × List Char) :=
  scanLinksFuel cs.length cs

/-- `extractMarkdownLinks` of `preload.ts`. -/
def extractMarkdownLinks (content sourceUrl : String) : List PreloadLinkIndexEntry :=
  (scanLinks content.toList).filterMap fun p =>
    let rawTitle := strTrim (String.mk p.1)
    let rawUrl := strTrim (String.mk p.2)
    if rawTitle = "" ∨ rawUrl = "" then none
    else
      some { title := cleanText rawTitle
             url := (resolveUrlStr rawUrl sourceUrl).getD rawUrl
             description := cleanText rawTitle
             localDocId := none }

/-- `dedupeLinkEntries` of `preload.ts`: first occurrence per
`url ++ "::" ++ title` key wins. -/
def dedupeLinkEntries (entries : List PreloadLinkIndexEntry) : List PreloadLinkIndexEntry :=
  go [] entries
where
  go (seen : List String) : List PreloadLinkIndexEntry → List PreloadLinkIndexEntry
    | [] => []
    | e :: rest =>
      let key := e.url ++ "::" ++ e.title
      if key ∈ seen then go seen rest
      else e :: go (seen ++ [key]) rest

/-- `humanizePath` of `preload.ts`. When `path` is empty or "/" the code
reads `new URL(url).pathname`; fetched documents carry absolute URLs, so
the model falls back to "" if `url` does not parse (the code would
throw there). -/
def humanizePath (path url : String) : String :=
  let src := if path ≠ "" ∧ path ≠ "/" then path
             else ((parseUrl url).map (·.pathname)).getD ""
  let part := ((splitOnAny ['/'] src.toList).filter (· ≠ [])).getLast?
  match part with
  | some seg => cleanText (String.mk (seg.map fun c => if c = '-' ∨ c = '_' then ' ' else c))
  | none => cleanText "Documentation"

/-- `normalizeComparableUrl` of `preload.ts`: strip the fragment, drop a
single trailing slash; unparseable URLs compare raw. -/
def normalizeComparableUrl (url : String) : String :=
  match parseUrl url with
  | none => url
  | some u =>
    let s := ({ u with hash := "" } : Url).toStr
    if strEndsWith s "/" then String.mk s.toList.dropLast else s

/-- JS `Map.set`: replace in place if the key exists, else append. -/
def mapSet : List (String × String) → String → String → List (String × String)
  | [], k, v => [(k, v)]
  | (k0, v0) :: rest, k, v =>
    if k0 = k then (k0, v) :: rest else (k0, v0) :: mapSet rest k v

/-- JS `Map.get`. -/
def mapGet? (m : List (String × String)) (k : String) : Option String :=
  (m.find? (·.1 = k)).map (·.2)

/-- The `while (used.has(base-count)) count += 1` search in
`uniqueFileBase`; the fuel `used.length + 2` always suffices because at
most `used.length` candidates can collide. -/
def findFreeSuffix (base : String) (used : List String) : Nat → Nat → Nat
  | count, 0 => count
  | count, fuel + 1 =>
    if (base ++ "-" ++ toString count) ∈ used then findFreeSuffix base used (count + 1) fuel
    else count

/-- `uniqueFileBase` of `preload.ts`; returns the chosen base and the
updated used-set. -/
def uniqueFileBase (base : String) (used : List String) : String × List String :=
  if base ∈ used then
    let k := findFreeSuffix base used 2 (used.length + 2)
    (base ++ "-" ++ toString k, used ++ [base ++ "-" ++ toString k])
  else (base, used ++ [base])

/-- The zero-padded sequential id: `doc-${String(n).padStart(5, "0")}`. -/
def docIdFor (n : Nat) : String :=
  "doc-" ++ String.mk (List.replicate (5 - (toString n).toList.length) '0') ++ toString n

/-- The summary-building pass of `buildPreloadBundle`, over the
URL-sorted items, threading the index and the used-file-base set. -/
def buildSummariesAux : Nat → List String → List PreloadItem → List PreloadDocSummary
  | _, _, [] => []
  | idx, used, item :: rest =>
    let t0 := extractMarkdownTitle item.content
    let title := if t0 = "" then humanizePath item.path item.url else t0
    let seed := if title = "" then humanizePath item.path item.url else title
    let fb := uniqueFileBase (slugifyFileBase seed) used
    { id := docIdFor (idx + 1)
      path := item.path
      url := item.url
      docsetType := item.docsetType
      title := title
      description := extractMarkdownDescription item.content
      contentFile := fb.1 ++ ".md"
      indexFile := fb.1 ++ ".index.json" } :: buildSummariesAux (idx + 1) fb.2 rest

/-- The per-document index pass of `buildPreloadBundle`. -/
def buildDocIndexes (normalizedItems : List PreloadItem) (summaries : List PreloadDocSummary)
    (urlToId : List (String × String)) : List (String × PreloadDocIndex) :=
  summaries.filterMap fun summary =>
    match normalizedItems.find? (fun item =>
        normalizeComparableUrl item.url = normalizeComparableUrl summary.url) with
    | none => none
    | some doc =>
      some (summary.id,
        { doc := summary
          headings := extractMarkdownHeadings doc.content
          links := (dedupeLinkEntries (extractMarkdownLinks doc.content doc.url)).map fun link =>
            { link with localDocId := mapGet? urlToId (normalizeComparableUrl link.url) }
          suggested := none })

/-- The sort key of `items.sort((a, b) => a.url.localeCompare(b.url))`:
a fixed total preorder on the url; a stable sort with it determines the
output uniquely, so `List.insertionSort` (stable) models the engine's
stable `Array.prototype.sort`. -/
def urlLe (a b : PreloadItem) : Prop := strLeB a.url b.url = true

instance : DecidableRel urlLe := fun a b => by unfold urlLe; infer_instance

instance : IsTotal PreloadItem urlLe := ⟨fun a b => charListLe_total a.url.toList b.url.toList⟩

instance : IsTrans PreloadItem urlLe :=
  ⟨fun _ _ _ h1 h2 => charListLe_trans _ _ _ h1 h2⟩

/-- `buildPreloadBundle` of `preload.ts`. `generatedAt` stands for the
`new Date().toISOString()` clock reading, passed in explicitly. -/
def buildPreloadBundle (baseUrl generatedAt : String) (items : List PreloadItem) : PreloadBundle :=
  let normalizedItems := List.insertionSort urlLe items
  let summaries := buildSummariesAux 0 [] normalizedItems
  let urlToId := summaries.foldl (fun m s => mapSet m (normalizeComparableUrl s.url) s.id) []
  { siteIndex :=
      { version := 1
        generatedAt := generatedAt
        baseUrl := baseUrl
        totalDocs := summaries.length
        docs := summaries }
    docIndexes := buildDocIndexes normalizedItems summaries urlToId
    docs := normalizedItems }

/-- `normalizePath` of `preload.ts`. -/
def normalizePath (path : String) : String :=
  if path = "" then ""
  else if strStartsWith (lowerStr path) "http://" ∨ strStartsWith (lowerStr path) "https://" then path
  else if strStartsWith path "/" then path
  else "/" ++ path

/-- `dedupePaths` of `preload.ts`. -/
def dedupePaths (paths : List String) : List String :=
  go [] paths
where
  go (seen : List String) : List String → List String
    | [] => []
    | p :: rest =>
      let n := normalizePath p
      if n ∈ seen then go seen rest else n :: go (seen ++ [n]) rest

/-- The `unknown` input of `parsePreloadPaths`. -/
inductive PathsInput
  | arr (xs : List String)
  | str (s : String)
  | other
deriving Repr

/-- `parsePreloadPaths` of `preload.ts`. -/
def parsePreloadPaths : PathsInput → List String
  | .arr xs => dedupePaths ((xs.map strTrim).filter (· ≠ ""))
  | .str s =>
    dedupePaths (((splitOnAny ['\n', ',', '\r'] s.toList).map fun cs =>
      strTrim (String.mk cs)).filter (· ≠ ""))
  | .other => []

/-- `normalizeMaxPages` of `preload.ts`; `none` models a non-number or
`NaN` input, `some i` a (floored) finite number. -/
def normalizeMaxPages (input : Option Int) : Nat :=
  match input with
  | none => 200
  | some i => (max 1 (min 2000 i)).toNat

/-- `buildPreloadTargets` of `preload.ts`. -/
def buildPreloadTargets (includeBase : Bool) (maxPages : Option Int) (paths : List String) :
    List String :=
  let merged := if includeBase then "" :: paths else paths
  (dedupePaths merged).take (normalizeMaxPages maxPages)

/-- Two lists sorted by the url-projection preorder that are permutations
of each other and have pairwise-distinct urls are equal (the stable sort
has a unique result on duplicate-free keys). -/
theorem sorted_perm_eq_of_nodup_urls :
    ∀ {l₁ l₂ : List PreloadItem}, l₁.Perm l₂ → List.Sorted urlLe l₁ → List.Sorted urlLe l₂ →
      (l₁.map (·.url)).Nodup → l₁ = l₂ := by
  intro l₁
  induction l₁ with
  | nil =>
    intro l₂ hp _ _ _
    exact hp.nil_eq
  | cons a t₁ ih =>
    intro l₂ hp h₁ h₂ hnd
    cases l₂ with
    | nil => exact absurd hp.eq_nil (by simp)
    | cons b t₂ =>
      have hndc : a.url ∉ t₁.map (·.url) ∧ (t₁.map (·.url)).Nodup :=
        List.nodup_cons.1 (by simpa using hnd)
      have hab : b = a := by
        by_contra hne
        have hb' : b = a ∨ b ∈ t₁ := List.mem_cons.1 (hp.mem_iff.2 (List.mem_cons_self b t₂))
        have ha' : a = b ∨ a ∈ t₂ := List.mem_cons.1 (hp.mem_iff.1 (List.mem_cons_self a t₁))
        rcases hb' with hb | hb
        · exact hne hb
        rcases ha' with ha | ha
        · exact hne ha.symm
        have hle1 : urlLe a b := List.rel_of_sorted_cons h₁ b hb
        have hle2 : urlLe b a := List.rel_of_sorted_cons h₂ a ha
        exact hndc.1 (List.mem_map.2 ⟨b, hb, (strLeB_antisymm hle1 hle2).symm⟩)
      subst hab
      have htp : t₁.Perm t₂ := hp.cons_inv
      congr 1
      exact ih htp h₁.of_cons h₂.of_cons hndc.2

/-- C4 (amended): `buildPreloadBundle` is deterministic in id assignment
for batches whose items have pairwise-distinct URLs — any permutation of
the input yields the identical bundle (same clock reading), hence the
same zero-padded sequential ids in URL-sorted order. -/
theorem buildPreloadBundle_deterministic (baseUrl generatedAt : String)
    (l₁ l₂ : List PreloadItem) (hp : l₁.Perm l₂) (hnd : (l₁.map (·.url)).Nodup) :
    buildPreloadBundle baseUrl generatedAt l₁ = buildPreloadBundle baseUrl generatedAt l₂ := by
  have hsorted : List.insertionSort urlLe l₁ = List.insertionSort urlLe l₂ := by
    apply sorted_perm_eq_of_nodup_urls
    · exact (List.perm_insertionSort urlLe l₁).trans (hp.trans (List.perm_insertionSort urlLe l₂).symm)
    · exact List.sorted_insertionSort urlLe l₁
    · exact List.sorted_insertionSort urlLe l₂
    · exact ((List.perm_insertionSort urlLe l₁).map (·.url)).nodup_iff.2 hnd
  unfold buildPreloadBundle
  rw [hsorted]

/-- Witness for C4 at a concrete permuted pair with distinct URLs. -/
theorem buildPreloadBundle_deterministic_witness :
    buildPreloadBundle "https://docs.example.com" "T"
        [⟨"/a", "https://docs.example.com/a", "generic", "# A"⟩,
         ⟨"/b", "https://docs.example.com/b", "generic", "# B"⟩]
      = buildPreloadBundle "https://docs.example.com" "T"
        [⟨"/b", "https://docs.example.com/b", "generic", "# B"⟩,
         ⟨"/a", "https://docs.example.com/a", "generic", "# A"⟩] :=
  buildPreloadBundle_deterministic "https://docs.example.com" "T" _ _
    (List.Perm.swap _ _ _) (by decide)

/-- Counterexample to C4 as stated: with two items sharing one URL the
stable sort preserves input order among the equal keys, so the item with
content "# One" receives id doc-00001 under one input order and
doc-00002 under the swapped order — the two inputs are permutations of
each other, yet the id an item receives differs. -/
theorem buildPreloadBundle_id_depends_on_input_order :
    ((buildPreloadBundle "https://docs.example.com" "T"
        [⟨"/a", "https://e.x/p", "generic", "# One"⟩,
         ⟨"/b", "https://e.x/p", "generic", "# Two"⟩]).siteIndex.docs.map
      fun d => (d.title, d.id)) = [("One", "doc-00001"), ("Two", "doc-00002")] ∧
    ((buildPreloadBundle "https://docs.example.com" "T"
        [⟨"/b", "https://e.x/p", "generic", "# Two"⟩,
         ⟨"/a", "https://e.x/p", "generic", "# One"⟩]).siteIndex.docs.map
      fun d => (d.title, d.id)) = [("Two", "doc-00001"), ("One", "doc-00002")] ∧
    List.Perm
      [(⟨"/a", "https://e.x/p", "generic", "# One"⟩ : PreloadItem),
       ⟨"/b", "https://e.x/p", "generic", "# Two"⟩]
      [⟨"/b", "https://e.x/p", "generic", "# Two"⟩,
       ⟨"/a", "https://e.x/p", "generic", "# One"⟩] :=
  ⟨by decide, by decide, List.Perm.swap _ _ _⟩

/-! ## JobOrchestrator (src/src/lib/preload-job-manager.ts) -/

inductive JobStatus
  | queued
  | running
  | completed
  | failed
deriving DecidableEq, Repr

structure JobProgress where
  discovered : Nat
  total : Nat
  completed : Nat
  failed : Nat
deriving DecidableEq, Repr

/-- JS `x || d` on an optional string: empty strings and absent values
both fall back to the default. -/
def jsOr (s : Option String) (d : String) : String :=
  match s with
  | some e => if e = "" then d else e
  | none => d

structure PersistedRequest where
  baseUrl : String
  format : String
  maxPages : Nat
  maxDiscover : Nat
  maxDepth : Nat
  concurrency : Nat
  saveLocal : Bool
deriving DecidableEq, Repr

/-- `PersistedJobSnapshot` of `part_006`: the durable job state. It has
no result-payload field — only status, timestamps, request and progress
survive eviction. -/
structure PersistedJobSnapshot where
  id : String
  status : JobStatus
  createdAt : String
  updatedAt : String
  request : PersistedRequest
  progress : JobProgress
  error : Option String
deriving DecidableEq, Repr

/-- The slice of an in-memory `PreloadJob` that `getPreloadJobResult`
reads; `α` is the (opaque) `PreloadJobResult` payload type. -/
structure MemJob (α : Type) where
  status : JobStatus
  error : Option String
  result : Option α
deriving DecidableEq, Repr

/-- Return shape of `getPreloadJobResult`. -/
inductive JobResultQuery (α : Type)
  | completedResult (result : α)
  | failedResult (error : String)
  | unfinished (error : String)
  | notFound (error : String)
deriving DecidableEq, Repr

/-- Model of `getPreloadJobResult`: the in-memory table (after pruning)
is consulted first, then the persisted snapshot. -/
def getPreloadJobResult {α : Type} (mem : Option (MemJob α))
    (persisted : Option PersistedJobSnapshot) : JobResultQuery α :=
  match mem with
  | some job =>
    if job.status = .failed then .failedResult (jsOr job.error "Preload job failed.")
    else
      match job.result with
      | some r =>
        if job.status = .completed then .completedResult r
        else .unfinished "Preload job is not completed yet."
      | none => .unfinished "Preload job is not completed yet."
  | none =>
    match persisted with
    | some p =>
      if p.status = .failed then .failedResult (jsOr p.error "Preload job failed.")
      else if p.status = .completed then
        .notFound "Preload job completed but its result has expired and is no longer available."
      else .unfinished "Preload job exists but is unfinished (from jobs.json list)."
    | none => .notFound "Preload job not found."

/-- C10: for a job id evicted from the in-memory table, a persisted
snapshot with status completed yields `not_found` with the
result-expired message; a persisted non-terminal snapshot yields
`unfinished`; and the completed result payload is never recoverable from
persisted state. -/
theorem getPreloadJobResult_evicted {α : Type} (p : PersistedJobSnapshot) :
    (p.status = .completed →
      getPreloadJobResult (α := α) none (some p) =
        .notFound "Preload job completed but its result has expired and is no longer available.") ∧
    (p.status = .queued ∨ p.status = .running →
      getPreloadJobResult (α := α) none (some p) =
        .unfinished "Preload job exists but is unfinished (from jobs.json list).") ∧
    (∀ r : α, getPreloadJobResult (α := α) none (some p) ≠ .completedResult r) := by
  refine ⟨?_, ?_, ?_⟩
  · intro h
    simp [getPreloadJobResult, h]
  · intro h
    rcases h with h | h <;> simp [getPreloadJobResult, h]
  · intro r
    cases hs : p.status <;> simp [getPreloadJobResult, hs]

/-- Witness for C10 at a concrete completed snapshot. -/
theorem getPreloadJobResult_evicted_witness :
    getPreloadJobResult (α := Unit) none
        (some { id := "j1", status := .completed, createdAt := "c", updatedAt := "u",
                request := { baseUrl := "https://example.com", format := "json", maxPages := 200,
                             maxDiscover := 300, maxDepth := 2, concurrency := 4, saveLocal := true },
                progress := ⟨1, 1, 1, 0⟩, error := none })
      = .notFound "Preload job completed but its result has expired and is no longer available." :=
  (getPreloadJobResult_evicted _).1 rfl

/-- The per-fetch result of `fetchDocumentationMarkdown`. -/
structure FetchOutcome where
  url : String
  docsetType : String
  markdown : String
deriving DecidableEq, Repr

/-- The exogenous effects `runPreloadJob` interacts with: discovery over
the network, the scratch write session, per-target fetches, per-target
scratch-JSON writes, the final bundle write (`writePreloadBundleToLocal`,
summarized by its `enabled` flag) and the JSONL consolidation. -/
structure JobEffects where
  discovery : Except String (List String)
  sessionOk : Bool
  sessionErr : Option String
  fetchPage : String → Except String FetchOutcome
  writeDoc : String → Option String
  bundleWriteOk : Bool
  bundleWriteErr : Option String
  finalizeOk : Bool
  finalizeErr : Option String

structure FetchPhaseState where
  items : List PreloadItem
  errors : List (String × String)
  completed : Nat
  failed : Nat
  snapshots : List JobStatus
deriving Repr

/-- The worker-pool fetch phase. Workers pull targets from a shared
cursor, so each target is processed exactly once; the per-target pushes
and counter updates are modelled sequentially in target order. A page
that fetched but whose scratch-JSON write failed stays in `items` (the
code pushes before writing) while also counting as failed. A snapshot is
written after every target. -/
def fetchPhase (eff : JobEffects) : List String → FetchPhaseState → FetchPhaseState
  | [], st => st
  | t :: rest, st =>
    let pathOrSlash := if t = "" then "/" else t
    let st1 :=
      match eff.fetchPage t with
      | .ok r =>
        let withItem := st.items ++ [(⟨pathOrSlash, r.url, r.docsetType, r.markdown⟩ : PreloadItem)]
        match eff.writeDoc t with
        | none => { st with items := withItem, completed := st.completed + 1 }
        | some e =>
          { st with items := withItem
                    errors := st.errors ++ [(pathOrSlash, jsOr (some e) "Failed to write scraped JSON")]
                    failed := st.failed + 1 }
      | .error e =>
        { st with errors := st.errors ++ [(pathOrSlash, e)], failed := st.failed + 1 }
    fetchPhase eff rest { st1 with snapshots := st1.snapshots ++ [JobStatus.running] }

/-- Final state of one `runPreloadJob` run: job status/error/result plus
the statuses handed to `safeWriteJobSnapshot`, in order. -/
structure JobFinal where
  status : JobStatus
  error : Option String
  items : List PreloadItem
  result : Option PreloadBundle
  progress : JobProgress
  snapshots : List JobStatus
deriving Repr

/-- The tail of `runPreloadJob` after discovery produced `targets`:
the structural-failure checks, the fetch phase, bundle build and the
persistence steps; every `throw` lands in the catch block, which sets
status failed and writes a failed snapshot. -/
def runPreloadJobTail (baseUrl generatedAt : String) (eff : JobEffects)
    (discoveredCount : Nat) (targets : List String) : JobFinal :=
  let progress0 : JobProgress := ⟨discoveredCount, targets.length, 0, 0⟩
  if targets = [] then
    { status := .failed, error := some "No targets found to preload.", items := [],
      result := none, progress := progress0, snapshots := [.running, .failed] }
  else if ¬ eff.sessionOk then
    { status := .failed, error := some (jsOr eff.sessionErr "Failed to initialize local output"),
      items := [], result := none, progress := progress0, snapshots := [.running, .failed] }
  else
    let st := fetchPhase eff targets ⟨[], [], 0, 0, []⟩
    let progress1 : JobProgress := ⟨discoveredCount, targets.length, st.completed, st.failed⟩
    if st.items = [] then
      { status := .failed
        error := some "No pages could be preloaded. Check baseUrl and crawl settings."
        items := st.items, result := none, progress := progress1
        snapshots := [JobStatus.running] ++ st.snapshots ++ [JobStatus.failed] }
    else
      let bundle := buildPreloadBundle baseUrl generatedAt st.items
      if ¬ eff.bundleWriteOk then
        { status := .failed, error := some (jsOr eff.bundleWriteErr "Failed to write local output")
          items := st.items, result := none, progress := progress1
          snapshots := [JobStatus.running] ++ st.snapshots ++ [JobStatus.failed] }
      else if ¬ eff.finalizeOk then
        { status := .failed, error := some (jsOr eff.finalizeErr "Failed to finalize scraped JSONL")
          items := st.items, result := none, progress := progress1
          snapshots := [JobStatus.running] ++ st.snapshots ++ [JobStatus.failed] }
      else
        { status := .completed, error := none, items := st.items, result := some bundle
          progress := progress1
          snapshots := [JobStatus.running] ++ st.snapshots ++ [JobStatus.completed] }

/-- Model of `runPreloadJob`: mark running, discover, exclude the seeded
base from the discovered list when `includeBase` (it is re-added as the
"" target), build targets, then `runPreloadJobTail`. -/
def runPreloadJobModel (baseUrl generatedAt : String) (paths : PathsInput) (includeBase : Bool)
    (maxPages : Option Int) (eff : JobEffects) : JobFinal :=
  match eff.discovery with
  | .error e =>
    { status := .failed, error := some e, items := [], result := none,
      progress := ⟨0, 0, 0, 0⟩, snapshots := [.running, .failed] }
  | .ok discoveredAll =>
    let userPaths := parsePreloadPaths paths
    let discoveredUrls :=
      if includeBase then
        match discoveredAll with
        | [] => []
        | f :: _ => discoveredAll.filter (fun u => u ≠ f)
      else discoveredAll
    let targets := buildPreloadTargets includeBase maxPages (userPaths ++ discoveredUrls)
    runPreloadJobTail baseUrl generatedAt eff discoveredAll.length targets

theorem getLast?_cons_append_singleton {α : Type} (a b : α) (l : List α) :
    (a :: (l ++ [b])).getLast? = some b := by
  rw [← List.cons_append]
  exact List.getLast?_concat _

theorem runPreloadJobTail_zero_items (baseUrl generatedAt : String) (eff : JobEffects)
    (discoveredCount : Nat) (targets : List String) (hsess : eff.sessionOk = true) :
    ((runPreloadJobTail baseUrl generatedAt eff discoveredCount targets).items = [] →
      (runPreloadJobTail baseUrl generatedAt eff discoveredCount targets).status = .failed ∧
      (runPreloadJobTail baseUrl generatedAt eff discoveredCount targets).status ≠ .completed ∧
      ((runPreloadJobTail baseUrl generatedAt eff discoveredCount targets).error
          = some "No targets found to preload." ∨
       (runPreloadJobTail baseUrl generatedAt eff discoveredCount targets).error
          = some "No pages could be preloaded. Check baseUrl and crawl settings.") ∧
      (runPreloadJobTail baseUrl generatedAt eff discoveredCount targets).snapshots.getLast?
          = some .failed) ∧
    ((runPreloadJobTail baseUrl generatedAt eff discoveredCount targets).status = .completed →
      (runPreloadJobTail baseUrl generatedAt eff discoveredCount targets).items ≠ []) := by
  unfold runPreloadJobTail
  by_cases ht : targets = []
  · simp [ht]
  · simp only [ht, if_false, hsess]
    by_cases hi : (fetchPhase eff targets
        ({ items := [], errors := [], completed := 0, failed := 0, snapshots := [] } :
          FetchPhaseState)).items = []
    · simp [hi, getLast?_cons_append_singleton]
    · by_cases hb : eff.bundleWriteOk
      · by_cases hf : eff.finalizeOk
        · simp [hi, hb, hf]
        · simp [hi, hb, hf]
      · simp [hi, hb]

/-- C5: when discovery succeeded and the scratch session opened, a run
whose fetch phase yields zero successfully fetched pages (zero targets
included — then the fetch phase is empty) ends with status failed and
one of the two descriptive messages, the last persisted snapshot is
failed, and the run never reaches completed (conversely a completed run
has at least one fetched page). -/
theorem runPreloadJob_zero_pages_fails (baseUrl generatedAt : String) (paths : PathsInput)
    (includeBase : Bool) (maxPages : Option Int) (eff : JobEffects) (urls : List String)
    (hdisc : eff.discovery = .ok urls) (hsess : eff.sessionOk = true) :
    ((runPreloadJobModel baseUrl generatedAt paths includeBase maxPages eff).items = [] →
      (runPreloadJobModel baseUrl generatedAt paths includeBase maxPages eff).status = .failed ∧
      (runPreloadJobModel baseUrl generatedAt paths includeBase maxPages eff).status ≠ .completed ∧
      ((runPreloadJobModel baseUrl generatedAt paths includeBase maxPages eff).error
          = some "No targets found to preload." ∨
       (runPreloadJobModel baseUrl generatedAt paths includeBase maxPages eff).error
          = some "No pages could be preloaded. Check baseUrl and crawl settings.") ∧
      (runPreloadJobModel baseUrl generatedAt paths includeBase maxPages eff).snapshots.getLast?
          = some .failed) ∧
    ((runPreloadJobModel baseUrl generatedAt paths includeBase maxPages eff).status = .completed →
      (runPreloadJobModel baseUrl generatedAt paths includeBase maxPages eff).items ≠ []) := by
  simp only [runPreloadJobModel, hdisc]
  exact runPreloadJobTail_zero_items baseUrl generatedAt eff urls.length _ hsess

/-- Witness for C5: a single unreachable target; every fetch fails, so
the job fails with the zero-pages message. -/
theorem runPreloadJob_zero_pages_fails_witness :
    ((runPreloadJobModel "https://example.com" "T" .other true none
        { discovery := .ok ["https://example.com/"], sessionOk := true, sessionErr := none,
          fetchPage := fun _ => .error "HTTP 404", writeDoc := fun _ => none,
          bundleWriteOk := true, bundleWriteErr := none,
          finalizeOk := true, finalizeErr := none }).items = [] →
      (runPreloadJobModel "https://example.com" "T" .other true none
        { discovery := .ok ["https://example.com/"], sessionOk := true, sessionErr := none,
          fetchPage := fun _ => .error "HTTP 404", writeDoc := fun _ => none,
          bundleWriteOk := true, bundleWriteErr := none,
          finalizeOk := true, finalizeErr := none }).status = .failed ∧
      (runPreloadJobModel "https://example.com" "T" .other true none
        { discovery := .ok ["https://example.com/"], sessionOk := true, sessionErr := none,
          fetchPage := fun _ => .error "HTTP 404", writeDoc := fun _ => none,
          bundleWriteOk := true, bundleWriteErr := none,
          finalizeOk := true, finalizeErr := none }).status ≠ .completed ∧
      ((runPreloadJobModel "https://example.com" "T" .other true none
        { discovery := .ok ["https://example.com/"], sessionOk := true, sessionErr := none,
          fetchPage := fun _ => .error "HTTP 404", writeDoc := fun _ => none,
          bundleWriteOk := true, bundleWriteErr := none,
          finalizeOk := true, finalizeErr := none }).error = some "No targets found to preload." ∨
       (runPreloadJobModel "https://example.com" "T" .other true none
        { discovery := .ok ["https://example.com/"], sessionOk := true, sessionErr := none,
          fetchPage := fun _ => .error "HTTP 404", writeDoc := fun _ => none,
          bundleWriteOk := true, bundleWriteErr := none,
          finalizeOk := true, finalizeErr := none }).error
          = some "No pages could be preloaded. Check baseUrl and crawl settings.") ∧
      (runPreloadJobModel "https://example.com" "T" .other true none
        { discovery := .ok ["https://example.com/"], sessionOk := true, sessionErr := none,
          fetchPage := fun _ => .error "HTTP 404", writeDoc := fun _ => none,
          bundleWriteOk := true, bundleWriteErr := none,
          finalizeOk := true, finalizeErr := none }).snapshots.getLast? = some .failed) ∧
    ((runPreloadJobModel "https://example.com" "T" .other true none
        { discovery := .ok ["https://example.com/"], sessionOk := true, sessionErr := none,
          fetchPage := fun _ => .error "HTTP 404", writeDoc := fun _ => none,
          bundleWriteOk := true, bundleWriteErr := none,
          finalizeOk := true, finalizeErr := none }).status = .completed →
      (runPreloadJobModel "https://example.com" "T" .other true none
        { discovery := .ok ["https://example.com/"], sessionOk := true, sessionErr := none,
          fetchPage := fun _ => .error "HTTP 404", writeDoc := fun _ => none,
          bundleWriteOk := true, bundleWriteErr := none,
          finalizeOk := true, finalizeErr := none }).items ≠ []) :=
  runPreloadJob_zero_pages_fails "https://example.com" "T" .other true none
    { discovery := .ok ["https://example.com/"], sessionOk := true, sessionErr := none,
      fetchPage := fun _ => .error "HTTP 404", writeDoc := fun _ => none,
      bundleWriteOk := true, bundleWriteErr := none,
      finalizeOk := true, finalizeErr := none }
    ["https://example.com/"] rfl rfl

/-! ## prunePreloadJobs (src/src/lib/preload-job-manager.ts lines 483-505)

The in-memory job table, in `Map` insertion order. `updatedAt` is an
epoch-millisecond clock reading (the code stores ISO-8601 strings whose
`localeCompare` order is exactly this numeric order). -/

structure PruneJob where
  id : String
  status : JobStatus
  updatedAt : Nat
deriving DecidableEq, Repr

def ttlMs : Nat := 1000 * 60 * 60

def maxJobs : Nat := 25

/-- The TTL pass keeps a job unless it is over the TTL and not running
(note: `queued` is not `running`, so stale queued jobs are deleted too). -/
def ttlKeep (now : Nat) (j : PruneJob) : Bool :=
  !(decide (ttlMs < now - j.updatedAt) && decide (j.status ≠ .running))

/-- The eviction comparator `a.updatedAt.localeCompare(b.updatedAt)` as a
total preorder (oldest first). -/
def updatedLe (a b : PruneJob) : Prop := a.updatedAt ≤ b.updatedAt

instance : DecidableRel updatedLe := fun a b => by unfold updatedLe; infer_instance

instance : IsTotal PruneJob updatedLe := ⟨fun a b => Nat.le_total a.updatedAt b.updatedAt⟩

instance : IsTrans PruneJob updatedLe := ⟨fun _ _ _ h1 h2 => Nat.le_trans h1 h2⟩

/-- The `for (const job of sorted)` eviction loop: stop once the table is
within `maxJobs`, skip running jobs, delete others by id. -/
def evictStep : List PruneJob → List PruneJob → List PruneJob
  | table, [] => table
  | table, j :: rest =>
    if table.length ≤ maxJobs then table
    else if j.status = .running then evictStep table rest
    else evictStep (table.filter (fun x => x.id ≠ j.id)) rest

/-- Model of `prunePreloadJobs`: TTL pass over the table, then, if still
over `maxJobs`, evict oldest-updated non-running jobs first. -/
def prunePreloadJobs (now : Nat) (jobs : List PruneJob) : List PruneJob :=
  let afterTtl := jobs.filter (ttlKeep now)
  if afterTtl.length ≤ maxJobs then afterTtl
  else evictStep afterTtl (List.insertionSort updatedLe afterTtl)

theorem evictStep_subset :
    ∀ (sorted table : List PruneJob) (x : PruneJob), x ∈ evictStep table sorted → x ∈ table := by
  intro sorted
  induction sorted with
  | nil => intro table x hx; exact hx
  | cons j rest ih =>
    intro table x hx
    unfold evictStep at hx
    by_cases hlen : table.length ≤ maxJobs
    · rwa [if_pos hlen] at hx
    · rw [if_neg hlen] at hx
      by_cases hr : j.status = .running
      · rw [if_pos hr] at hx
        exact ih table x hx
      · rw [if_neg hr] at hx
        exact List.mem_of_mem_filter (ih _ x hx)

theorem evictStep_keeps_running (t : List PruneJob) (hnd : (t.map (·.id)).Nodup) :
    ∀ (sorted table : List PruneJob), (∀ y ∈ table, y ∈ t) → (∀ y ∈ sorted, y ∈ t) →
      ∀ x ∈ table, x.status = .running → x ∈ evictStep table sorted := by
  intro sorted
  induction sorted with
  | nil => intro table _ _ x hx _; exact hx
  | cons j rest ih =>
    intro table htab hsort x hx hrun
    unfold evictStep
    by_cases hlen : table.length ≤ maxJobs
    · rw [if_pos hlen]; exact hx
    · rw [if_neg hlen]
      by_cases hr : j.status = .running
      · rw [if_pos hr]
        exact ih table htab (fun y hy => hsort y (List.mem_cons_of_mem _ hy)) x hx hrun
      · rw [if_neg hr]
        have hxid : x.id ≠ j.id := by
          intro he
          have hxj : x = j :=
            List.inj_on_of_nodup_map hnd (htab x hx) (hsort j (List.mem_cons_self _ _)) he
          exact hr (hxj ▸ hrun)
        refine ih _ (fun y hy => htab y (List.mem_of_mem_filter hy))
          (fun y hy => hsort y (List.mem_cons_of_mem _ hy)) x ?_ hrun
        exact List.mem_filter.2 ⟨hx, by simpa using hxid⟩

theorem evictStep_removed_spec (t : List PruneJob) (hnd : (t.map (·.id)).Nodup) :
    ∀ (sorted table : List PruneJob), List.Sorted updatedLe sorted →
      (∀ y ∈ table, y ∈ t) → (∀ y ∈ sorted, y ∈ t) →
      (∀ y ∈ table, y.status ≠ .running → y ∈ sorted) →
      ∀ x ∈ table, x ∉ evictStep table sorted →
        x.status ≠ .running ∧
        ∀ k ∈ evictStep table sorted, k.status ≠ .running → x.updatedAt ≤ k.updatedAt := by
  intro sorted
  induction sorted with
  | nil =>
    intro table _ _ _ _ x hx hnx
    exact absurd hx hnx
  | cons j rest ih =>
    intro table hsorted htab hsort hnr x hx hnx
    unfold evictStep at hnx ⊢
    by_cases hlen : table.length ≤ maxJobs
    · rw [if_pos hlen] at hnx ⊢
      exact absurd hx hnx
    · rw [if_neg hlen] at hnx ⊢
      by_cases hr : j.status = .running
      · rw [if_pos hr] at hnx ⊢
        refine ih table hsorted.of_cons htab
          (fun y hy => hsort y (List.mem_cons_of_mem _ hy)) ?_ x hx hnx
        intro y hy hyr
        rcases List.mem_cons.1 (hnr y hy hyr) with he | he
        · exact absurd (he ▸ hr) hyr
        · exact he
      · rw [if_neg hr] at hnx ⊢
        by_cases hxin : x ∈ table.filter (fun y => y.id ≠ j.id)
        · refine ih _ hsorted.of_cons (fun y hy => htab y (List.mem_of_mem_filter hy))
            (fun y hy => hsort y (List.mem_cons_of_mem _ hy)) ?_ x hxin hnx
          intro y hy hyr
          have hyid : y.id ≠ j.id := by simpa using (List.mem_filter.1 hy).2
          rcases List.mem_cons.1 (hnr y (List.mem_of_mem_filter hy) hyr) with he | he
          · exact absurd (congrArg (·.id) he) hyid
          · exact he
        · have hxid : x.id = j.id := by
            by_contra hne
            exact hxin (List.mem_filter.2 ⟨hx, by simpa using hne⟩)
          have hxj : x = j :=
            List.inj_on_of_nodup_map hnd (htab x hx) (hsort j (List.mem_cons_self _ _)) hxid
          subst hxj
          refine ⟨hr, ?_⟩
          intro k hk hkr
          have hk' : k ∈ table.filter (fun y => y.id ≠ x.id) := evictStep_subset _ _ _ hk
          have hkid : k.id ≠ x.id := by simpa using (List.mem_filter.1 hk').2
          have hkrest : k ∈ rest := by
            rcases List.mem_cons.1 (hnr k (List.mem_of_mem_filter hk') hkr) with he | he
            · exact absurd (congrArg (·.id) he) hkid
            · exact he
          exact List.rel_of_sorted_cons hsorted k hkrest

/-- C7 (amended): `prunePreloadJobs` never removes a running job; a
non-running job (terminal or still queued) over the 1-hour TTL is always
removed; and any removed job was not running and was either TTL-expired
or evicted because the table exceeded 25 entries, in which case every
retained non-running job is at least as recently updated (oldest-updated
evicted first). -/
theorem prunePreloadJobs_spec (now : Nat) (jobs : List PruneJob)
    (hnd : (jobs.map (·.id)).Nodup) :
    (∀ j ∈ jobs, j.status = .running → j ∈ prunePreloadJobs now jobs) ∧
    (∀ j ∈ jobs, j.status ≠ .running → ttlMs < now - j.updatedAt →
      j ∉ prunePreloadJobs now jobs) ∧
    (∀ j ∈ jobs, j ∉ prunePreloadJobs now jobs →
      j.status ≠ .running ∧
      (ttlMs < now - j.updatedAt ∨
        (maxJobs < (jobs.filter (ttlKeep now)).length ∧
          ∀ k ∈ prunePreloadJobs now jobs, k.status ≠ .running →
            j.updatedAt ≤ k.updatedAt))) := by
  have hndT : ((jobs.filter (ttlKeep now)).map (·.id)).Nodup :=
    ((List.filter_sublist jobs).map (·.id)).nodup hnd
  have hsortmem : ∀ y ∈ List.insertionSort updatedLe (jobs.filter (ttlKeep now)),
      y ∈ jobs.filter (ttlKeep now) := fun y hy =>
    (List.perm_insertionSort updatedLe _).subset hy
  refine ⟨?_, ?_, ?_⟩
  · intro j hj hrun
    have hkeep : ttlKeep now j = true := by
      simp [ttlKeep, hrun]
    have hjT : j ∈ jobs.filter (ttlKeep now) := List.mem_filter.2 ⟨hj, hkeep⟩
    unfold prunePreloadJobs
    by_cases hlen : (jobs.filter (ttlKeep now)).length ≤ maxJobs
    · rw [if_pos hlen]; exact hjT
    · rw [if_neg hlen]
      exact evictStep_keeps_running _ hndT _ _ (fun y hy => hy) hsortmem j hjT hrun
  · intro j hj hnr hexp
    have hkeep : ttlKeep now j = false := by
      simp [ttlKeep, hexp, hnr]
    intro hmem
    have hjT : j ∈ jobs.filter (ttlKeep now) := by
      unfold prunePreloadJobs at hmem
      by_cases hlen : (jobs.filter (ttlKeep now)).length ≤ maxJobs
      · rwa [if_pos hlen] at hmem
      · rw [if_neg hlen] at hmem
        exact evictStep_subset _ _ _ hmem
    have := (List.mem_filter.1 hjT).2
    rw [hkeep] at this
    exact absurd this (by simp)
  · intro j hj hnmem
    by_cases hkeep : ttlKeep now j = true
    · have hjT : j ∈ jobs.filter (ttlKeep now) := List.mem_filter.2 ⟨hj, hkeep⟩
      unfold prunePreloadJobs at hnmem
      by_cases hlen : (jobs.filter (ttlKeep now)).length ≤ maxJobs
      · rw [if_pos hlen] at hnmem
        exact absurd hjT hnmem
      · rw [if_neg hlen] at hnmem
        have hspec := evictStep_removed_spec _ hndT
          (List.insertionSort updatedLe (jobs.filter (ttlKeep now)))
          (jobs.filter (ttlKeep now))
          (List.sorted_insertionSort updatedLe _)
          (fun y hy => hy) hsortmem
          (fun y hy _ => (List.perm_insertionSort updatedLe _).symm.subset hy)
          j hjT hnmem
        refine ⟨hspec.1, Or.inr ⟨Nat.lt_of_not_le hlen, ?_⟩⟩
        intro k hk hkr
        have hk' : k ∈ evictStep (jobs.filter (ttlKeep now))
            (List.insertionSort updatedLe (jobs.filter (ttlKeep now))) := by
          unfold prunePreloadJobs at hk
          rwa [if_neg hlen] at hk
        exact hspec.2 k hk' hkr
    · have hkeep' : ttlKeep now j = false := by
        cases h : ttlKeep now j
        · rfl
        · exact absurd h hkeep
      have hparts : ttlMs < now - j.updatedAt ∧ j.status ≠ .running := by
        simpa [ttlKeep] using hkeep'
      exact ⟨hparts.2, Or.inl hparts.1⟩

/-- Witness for C7 (amended): a fresh running job is retained while a
stale queued job and a stale completed job are pruned. -/
theorem prunePreloadJobs_spec_witness :
    (⟨"r", .running, 7000000⟩ : PruneJob) ∈ prunePreloadJobs 7200000
        [⟨"r", .running, 7000000⟩, ⟨"q", .queued, 0⟩, ⟨"c", .completed, 100⟩] ∧
    (⟨"c", .completed, 100⟩ : PruneJob) ∉ prunePreloadJobs 7200000
        [⟨"r", .running, 7000000⟩, ⟨"q", .queued, 0⟩, ⟨"c", .completed, 100⟩] :=
  ⟨(prunePreloadJobs_spec 7200000 _ (by decide)).1 _ (by decide) rfl,
   (prunePreloadJobs_spec 7200000 _ (by decide)).2.1 _ (by decide) (by decide) (by decide)⟩

/-- Counterexample to C7 as stated: a `queued` job is not terminal, yet
once over the 1-hour TTL the prune deletes it (the code only spares
`running` jobs, not all non-terminal ones). -/
theorem prune_deletes_stale_queued_job :
    prunePreloadJobs 3600001 [⟨"j1", .queued, 0⟩] = [] ∧
    JobStatus.queued ≠ JobStatus.completed ∧ JobStatus.queued ≠ JobStatus.failed := by
  decide

/-! ## DiscoveryEngine (src/src/lib/docset/preload.ts)

Network fetches and the regex/JSON parsing of fetched sitemap,
search-index and HTML payloads (`fetchText` composed with
`parseSitemapUrls`, `parseSearchIndexUrls`, `parseLinksFromHtml`) are
exogenous: the oracle returns the candidate URL lists those parsers
produce, or the error message of a failed fetch. The admission pipeline
— protocol/host filter, non-document-extension blocklist, the seeded
set, and the `maxDiscover` cap — is embedded from the source. -/

def NON_DOC_EXTENSIONS : List String :=
  [".png", ".jpg", ".jpeg", ".gif", ".webp", ".svg", ".ico", ".pdf", ".zip", ".gz", ".tgz",
   ".tar", ".mp4", ".mp3", ".wav", ".css", ".js", ".map", ".woff", ".woff2", ".ttf", ".otf"]

def SITEMAP_PATHS : List String := ["sitemap.xml", "sitemap_index.xml"]

def SEARCH_INDEX_PATHS : List String :=
  ["search/search_index.json", "searchindex.json", "search.json", "search-index.json",
   "searchindex.js"]

/-- `isAllowedUrl`: http(s) only, same hostname as the base when
`sameHostOnly`. -/
def isAllowedUrl (url : String) (base : Url) (sameHostOnly : Bool) : Bool :=
  match parseUrl url with
  | none => false
  | some p =>
    if ¬ (p.scheme = "http:" ∨ p.scheme = "https:") then false
    else if sameHostOnly ∧ p.host ≠ base.host then false
    else true

/-- `isLikelyDocumentationPage`: the lowercased path must not end in any
blocklisted non-document extension. -/
def isLikelyDocumentationPage (url : String) : Bool :=
  match parseUrl url with
  | none => false
  | some p =>
    !(NON_DOC_EXTENSIONS.any fun ext => strEndsWith (lowerStr p.pathname) ext)

/-- `normalizePositiveInt`: default on non-numbers, else clamp to
`[1, maxValue]` (flooring is the `Int` coercion of the JS number). -/
def normalizePositiveInt (value : Option Int) (defaultValue maxValue : Nat) : Nat :=
  match value with
  | none => defaultValue
  | some i => (max 1 (min (maxValue : Int) i)).toNat

structure DiscoveryEnv where
  sitemap : String → Except String (List String)
  searchIndex : String → Except String (List String)
  pageLinks : String → Except String (List String)

structure DiscDiagnostics where
  attempted : List String
  fetched : List String
  errors : List (String × String)
deriving DecidableEq, Repr

structure DiscState where
  discovered : List String
  diag : DiscDiagnostics
deriving DecidableEq, Repr

structure DiscoverOptionsM where
  includeIndexes : Bool := true
  includeLinks : Bool := true
  maxDiscover : Option Int := none
  maxDepth : Option Int := none
  sameHostOnly : Bool := true

structure DiscoverResultM where
  urls : List String
  diagnostics : DiscDiagnostics
deriving DecidableEq, Repr

/-- The admission loop shared by the sitemap and search-index paths:
filter, add to the (duplicate-free, insertion-ordered) discovered set,
break once the set reaches `maxDiscover`. -/
def admitUrls (base : Url) (sameHostOnly : Bool) (maxDiscover : Nat) :
    List String → List String → List String
  | discovered, [] => discovered
  | discovered, u :: rest =>
    if ¬ isAllowedUrl u base sameHostOnly then admitUrls base sameHostOnly maxDiscover discovered rest
    else if ¬ isLikelyDocumentationPage u then admitUrls base sameHostOnly maxDiscover discovered rest
    else
      let d2 := if u ∈ discovered then discovered else discovered ++ [u]
      if maxDiscover ≤ d2.length then d2
      else admitUrls base sameHostOnly maxDiscover d2 rest

def pushAttempt (diag : DiscDiagnostics) (url : String) : DiscDiagnostics :=
  { diag with attempted := diag.attempted ++ [url] }

def pushFetched (diag : DiscDiagnostics) (url : String) : DiscDiagnostics :=
  { diag with fetched := diag.fetched ++ [url] }

def pushError (diag : DiscDiagnostics) (url msg : String) : DiscDiagnostics :=
  { diag with errors := diag.errors ++ [(url, msg)] }

/-- `tryDiscoverFromSitemap`: fetch+parse via the oracle, admit the
candidates; failures are recorded in diagnostics, not fatal. -/
def tryDiscoverFromSitemap (env : DiscoveryEnv) (base : Url) (sameHostOnly : Bool)
    (maxDiscover : Nat) (sitemapUrl : String) (st : DiscState) : DiscState :=
  match env.sitemap sitemapUrl with
  | .error e => { st with diag := pushError (pushAttempt st.diag sitemapUrl) sitemapUrl e }
  | .ok urls =>
    { discovered := admitUrls base sameHostOnly maxDiscover st.discovered urls
      diag := pushFetched (pushAttempt st.diag sitemapUrl) sitemapUrl }

/-- `tryDiscoverFromSearchIndex` (the oracle already resolved the parsed
document locations against the index base). -/
def tryDiscoverFromSearchIndex (env : DiscoveryEnv) (base : Url) (sameHostOnly : Bool)
    (maxDiscover : Nat) (indexUrl : String) (st : DiscState) : DiscState :=
  match env.searchIndex indexUrl with
  | .error e => { st with diag := pushError (pushAttempt st.diag indexUrl) indexUrl e }
  | .ok urls =>
    { discovered := admitUrls base sameHostOnly maxDiscover st.discovered urls
      diag := pushFetched (pushAttempt st.diag indexUrl) indexUrl }

/-- The `for (const path of SITEMAP_PATHS)` loop with its size-cap break
(the break is the monotone guard re-checked at every path). -/
def runSitemapPaths (env : DiscoveryEnv) (base : Url) (sameHostOnly : Bool) (maxDiscover : Nat)
    (indexBase : Url) (st : DiscState) : DiscState :=
  SITEMAP_PATHS.foldl
    (fun st path =>
      if maxDiscover ≤ st.discovered.length then st
      else tryDiscoverFromSitemap env base sameHostOnly maxDiscover
        (resolveAgainst indexBase path).toStr st)
    st

/-- The `for (const path of SEARCH_INDEX_PATHS)` loop. -/
def runSearchIndexPaths (env : DiscoveryEnv) (base : Url) (sameHostOnly : Bool)
    (maxDiscover : Nat) (indexBase : Url) (st : DiscState) : DiscState :=
  SEARCH_INDEX_PATHS.foldl
    (fun st path =>
      if maxDiscover ≤ st.discovered.length then st
      else tryDiscoverFromSearchIndex env base sameHostOnly maxDiscover
        (resolveAgainst indexBase path).toStr st)
    st

/-- `buildIndexBaseCandidates`: the base directory (pathname forced to
end in "/") and the site root, deduplicated. -/
def buildIndexBaseCandidates (base : Url) : List Url :=
  let currentDir :=
    if strEndsWith base.pathname "/" then base
    else { base with pathname := base.pathname ++ "/" }
  let root : Url := { base with pathname := "/", search := "", hash := "" }
  if currentDir.toStr = root.toStr then [currentDir] else [currentDir, root]

/-- The `includeIndexes` phase: both loops for each index base. -/
def runIndexesPhase (env : DiscoveryEnv) (base : Url) (sameHostOnly : Bool) (maxDiscover : Nat)
    (st : DiscState) : DiscState :=
  (buildIndexBaseCandidates base).foldl
    (fun st indexBase =>
      runSearchIndexPaths env base sameHostOnly maxDiscover indexBase
        (runSitemapPaths env base sameHostOnly maxDiscover indexBase st))
    st

structure CrawlState where
  discovered : List String
  seen : List String
  queue : List (String × Nat)
  diag : DiscDiagnostics
deriving DecidableEq, Repr

/-- The per-page link admission loop of the BFS phase: skip filtered and
already-discovered links, enqueue fresh ones below `maxDepth`, break at
the cap. Returns the new discovered set and queue. -/
def admitLinks (base : Url) (sameHostOnly : Bool) (maxDiscover maxDepth curDepth : Nat) :
    List String → List String → List (String × Nat) → List String × List (String × Nat)
  | [], discovered, queue => (discovered, queue)
  | u :: rest, discovered, queue =>
    if ¬ isAllowedUrl u base sameHostOnly then
      admitLinks base sameHostOnly maxDiscover maxDepth curDepth rest discovered queue
    else if ¬ isLikelyDocumentationPage u then
      admitLinks base sameHostOnly maxDiscover maxDepth curDepth rest discovered queue
    else if u ∈ discovered then
      admitLinks base sameHostOnly maxDiscover maxDepth curDepth rest discovered queue
    else
      let d2 := discovered ++ [u]
      let q2 := if curDepth < maxDepth then queue ++ [(u, curDepth + 1)] else queue
      if maxDiscover ≤ d2.length then (d2, q2)
      else admitLinks base sameHostOnly maxDiscover maxDepth curDepth rest d2 q2

/-- The `while (queue.length > 0 && discovered.size < maxDiscover)` BFS
loop, with fuel: every iteration pops one queue entry and enqueues only
freshly discovered URLs, of which there are at most `maxDiscover`, so
`maxDiscover + 2` fuel always suffices; on exhausted fuel (never reached)
the current state is returned, which the proved invariants tolerate. -/
def crawlLoop (env : DiscoveryEnv) (base : Url) (sameHostOnly : Bool)
    (maxDiscover maxDepth : Nat) : Nat → CrawlState → CrawlState
  | 0, st => st
  | fuel + 1, st =>
    if maxDiscover ≤ st.discovered.length then st
    else
      match st.queue with
      | [] => st
      | (url, depth) :: rest =>
        if maxDepth < depth then
          crawlLoop env base sameHostOnly maxDiscover maxDepth fuel { st with queue := rest }
        else if url ∈ st.seen then
          crawlLoop env base sameHostOnly maxDiscover maxDepth fuel { st with queue := rest }
        else
          match env.pageLinks url with
          | .error e =>
            crawlLoop env base sameHostOnly maxDiscover maxDepth fuel
              { st with queue := rest, seen := st.seen ++ [url]
                        diag := pushError (pushAttempt st.diag url) url e }
          | .ok links =>
            let dq := admitLinks base sameHostOnly maxDiscover maxDepth depth links
              st.discovered rest
            crawlLoop env base sameHostOnly maxDiscover maxDepth fuel
              { discovered := dq.1, seen := st.seen ++ [url], queue := dq.2
                diag := pushFetched (pushAttempt st.diag url) url }

/-- The body of `discoverDocumentationUrls` once the base URL parsed. -/
def discoverCore (env : DiscoveryEnv) (b0 : Url) (opts : DiscoverOptionsM) : DiscoverResultM :=
  let maxDiscover := normalizePositiveInt opts.maxDiscover 300 2000
  let maxDepth := normalizePositiveInt opts.maxDepth 2 5
  let base : Url := { b0 with hash := "" }
  let normalizedBase := base.toStr
  let st0 : DiscState := { discovered := [normalizedBase], diag := ⟨[], [], []⟩ }
  let st1 :=
    if opts.includeIndexes then runIndexesPhase env base opts.sameHostOnly maxDiscover st0
    else st0
  let st2 : CrawlState :=
    if opts.includeLinks then
      crawlLoop env base opts.sameHostOnly maxDiscover maxDepth (maxDiscover + 2)
        { discovered := st1.discovered, seen := [], queue := [(normalizedBase, 0)]
          diag := st1.diag }
    else
      { discovered := st1.discovered, seen := [], queue := [], diag := st1.diag }
  { urls := st2.discovered, diagnostics := st2.diag }

/-- Model of `discoverDocumentationUrls`; `none` models the throw on an
unparseable base URL. -/
def discoverDocumentationUrls (env : DiscoveryEnv) (baseUrl : String)
    (opts : DiscoverOptionsM) : Option DiscoverResultM :=
  match parseUrl baseUrl with
  | none => none
  | some b0 => some (discoverCore env b0 opts)

theorem admitUrls_extends (base : Url) (sameHostOnly : Bool) (maxDiscover : Nat) :
    ∀ (urls d : List String), ∃ ext, admitUrls base sameHostOnly maxDiscover d urls = d ++ ext ∧
      ∀ u ∈ ext, isLikelyDocumentationPage u = true := by
  intro urls
  induction urls with
  | nil => intro d; exact ⟨[], by simp [admitUrls], by simp⟩
  | cons u rest ih =>
    intro d
    simp only [admitUrls]
    split
    · exact ih d
    · split
      · exact ih d
      · next h2 =>
        have hlik : isLikelyDocumentationPage u = true := by
          by_contra hc
          exact h2 (by simpa using hc)
        by_cases hmem : u ∈ d
        · rw [if_pos hmem]
          split
          · exact ⟨[], by simp, by simp⟩
          · exact ih d
        · rw [if_neg hmem]
          split
          · exact ⟨[u], rfl, by simpa using hlik⟩
          · obtain ⟨ext, he, hall⟩ := ih (d ++ [u])
            refine ⟨[u] ++ ext, by simpa using he, ?_⟩
            intro x hx
            rcases List.mem_append.1 hx with hx | hx
            · rw [List.mem_singleton.1 hx]; exact hlik
            · exact hall x hx

theorem admitUrls_length (base : Url) (sameHostOnly : Bool) (maxDiscover : Nat) :
    ∀ (urls d : List String), d.length < maxDiscover →
      (admitUrls base sameHostOnly maxDiscover d urls).length ≤ maxDiscover := by
  intro urls
  induction urls with
  | nil => intro d hd; simpa [admitUrls] using Nat.le_of_lt hd
  | cons u rest ih =>
    intro d hd
    simp only [admitUrls]
    split
    · exact ih d hd
    · split
      · exact ih d hd
      · by_cases hmem : u ∈ d
        · rw [if_pos hmem]
          split
          · exact Nat.le_of_lt hd
          · exact ih d hd
        · rw [if_neg hmem]
          split
          · simpa using hd
          · next hcap =>
            exact ih (d ++ [u]) (by simpa using Nat.lt_of_not_le hcap)

/-- The relation "one discovery phase turned `d` into `d'`": it only
appended blocklist-passing URLs and it respects the cap. -/
def discStep (maxDiscover : Nat) (d d' : List String) : Prop :=
  (∃ ext, d' = d ++ ext ∧ ∀ u ∈ ext, isLikelyDocumentationPage u = true) ∧
  (d.length ≤ maxDiscover → d'.length ≤ maxDiscover)

theorem discStep_refl (maxDiscover : Nat) (d : List String) : discStep maxDiscover d d :=
  ⟨⟨[], by simp, by simp⟩, fun h => h⟩

theorem discStep_trans {maxDiscover : Nat} {d1 d2 d3 : List String}
    (h1 : discStep maxDiscover d1 d2) (h2 : discStep maxDiscover d2 d3) :
    discStep maxDiscover d1 d3 := by
  obtain ⟨⟨e1, he1, ha1⟩, hb1⟩ := h1
  obtain ⟨⟨e2, he2, ha2⟩, hb2⟩ := h2
  refine ⟨⟨e1 ++ e2, by rw [he2, he1, List.append_assoc], ?_⟩, fun h => hb2 (hb1 h)⟩
  intro u hu
  rcases List.mem_append.1 hu with hu | hu
  · exact ha1 u hu
  · exact ha2 u hu

theorem admitUrls_discStep (base : Url) (sameHostOnly : Bool) (maxDiscover : Nat)
    (urls d : List String) (hd : d.length < maxDiscover) :
    discStep maxDiscover d (admitUrls base sameHostOnly maxDiscover d urls) :=
  ⟨admitUrls_extends base sameHostOnly maxDiscover urls d,
   fun _ => admitUrls_length base sameHostOnly maxDiscover urls d hd⟩

theorem tryDiscoverFromSitemap_discStep (env : DiscoveryEnv) (base : Url) (sameHostOnly : Bool)
    (maxDiscover : Nat) (sitemapUrl : String) (st : DiscState)
    (hd : st.discovered.length < maxDiscover) :
    discStep maxDiscover st.discovered
      (tryDiscoverFromSitemap env base sameHostOnly maxDiscover sitemapUrl st).discovered := by
  unfold tryDiscoverFromSitemap
  cases env.sitemap sitemapUrl with
  | error e => exact discStep_refl _ _
  | ok urls => exact admitUrls_discStep base sameHostOnly maxDiscover urls st.discovered hd

theorem tryDiscoverFromSearchIndex_discStep (env : DiscoveryEnv) (base : Url)
    (sameHostOnly : Bool) (maxDiscover : Nat) (indexUrl : String) (st : DiscState)
    (hd : st.discovered.length < maxDiscover) :
    discStep maxDiscover st.discovered
      (tryDiscoverFromSearchIndex env base sameHostOnly maxDiscover indexUrl st).discovered := by
  unfold tryDiscoverFromSearchIndex
  cases env.searchIndex indexUrl with
  | error e => exact discStep_refl _ _
  | ok urls => exact admitUrls_discStep base sameHostOnly maxDiscover urls st.discovered hd

theorem foldl_guarded_discStep (maxDiscover : Nat)
    (g : DiscState → String → DiscState)
    (hg : ∀ st x, st.discovered.length < maxDiscover →
      discStep maxDiscover st.discovered (g st x).discovered) :
    ∀ (paths : List String) (st : DiscState), st.discovered.length ≤ maxDiscover →
      discStep maxDiscover st.discovered
        ((paths.foldl (fun st path =>
          if maxDiscover ≤ st.discovered.length then st else g st path) st).discovered) ∧
      ((paths.foldl (fun st path =>
          if maxDiscover ≤ st.discovered.length then st else g st path) st).discovered.length
        ≤ maxDiscover) := by
  intro paths
  induction paths with
  | nil => intro st hst; exact ⟨discStep_refl _ _, hst⟩
  | cons p rest ih =>
    intro st hst
    simp only [List.foldl_cons]
    by_cases hcap : maxDiscover ≤ st.discovered.length
    · rw [if_pos hcap]
      exact ih st hst
    · rw [if_neg hcap]
      have hstep := hg st p (Nat.lt_of_not_le hcap)
      have := ih (g st p) (hstep.2 hst)
      exact ⟨discStep_trans hstep this.1, this.2⟩

theorem runSitemapPaths_discStep (env : DiscoveryEnv) (base : Url) (sameHostOnly : Bool)
    (maxDiscover : Nat) (indexBase : Url) (st : DiscState)
    (hst : st.discovered.length ≤ maxDiscover) :
    discStep maxDiscover st.discovered
        (runSitemapPaths env base sameHostOnly maxDiscover indexBase st).discovered ∧
      (runSitemapPaths env base sameHostOnly maxDiscover indexBase st).discovered.length
        ≤ maxDiscover :=
  foldl_guarded_discStep maxDiscover
    (fun st path => tryDiscoverFromSitemap env base sameHostOnly maxDiscover
      (resolveAgainst indexBase path).toStr st)
    (fun st _ hd => tryDiscoverFromSitemap_discStep env base sameHostOnly maxDiscover _ st hd)
    SITEMAP_PATHS st hst

theorem runSearchIndexPaths_discStep (env : DiscoveryEnv) (base : Url) (sameHostOnly : Bool)
    (maxDiscover : Nat) (indexBase : Url) (st : DiscState)
    (hst : st.discovered.length ≤ maxDiscover) :
    discStep maxDiscover st.discovered
        (runSearchIndexPaths env base sameHostOnly maxDiscover indexBase st).discovered ∧
      (runSearchIndexPaths env base sameHostOnly maxDiscover indexBase st).discovered.length
        ≤ maxDiscover :=
  foldl_guarded_discStep maxDiscover
    (fun st path => tryDiscoverFromSearchIndex env base sameHostOnly maxDiscover
      (resolveAgainst indexBase path).toStr st)
    (fun st _ hd => tryDiscoverFromSearchIndex_discStep env base sameHostOnly maxDiscover _ st hd)
    SEARCH_INDEX_PATHS st hst

theorem runIndexesPhase_discStep (env : DiscoveryEnv) (base : Url) (sameHostOnly : Bool)
    (maxDiscover : Nat) (st : DiscState) (hst : st.discovered.length ≤ maxDiscover) :
    discStep maxDiscover st.discovered
        (runIndexesPhase env base sameHostOnly maxDiscover st).discovered ∧
      (runIndexesPhase env base sameHostOnly maxDiscover st).discovered.length ≤ maxDiscover := by
  unfold runIndexesPhase
  generalize buildIndexBaseCandidates base = bases
  induction bases generalizing st with
  | nil => exact ⟨discStep_refl _ _, hst⟩
  | cons b rest ih =>
    simp only [List.foldl_cons]
    have h1 := runSitemapPaths_discStep env base sameHostOnly maxDiscover b st hst
    have h2 := runSearchIndexPaths_discStep env base sameHostOnly maxDiscover b _ h1.2
    have h3 := ih _ h2.2
    exact ⟨discStep_trans h1.1 (discStep_trans h2.1 h3.1), h3.2⟩

theorem admitLinks_extends (base : Url) (sameHostOnly : Bool)
    (maxDiscover maxDepth curDepth : Nat) :
    ∀ (links d : List String) (q : List (String × Nat)),
      ∃ ext, (admitLinks base sameHostOnly maxDiscover maxDepth curDepth links d q).1 = d ++ ext ∧
        ∀ u ∈ ext, isLikelyDocumentationPage u = true := by
  intro links
  induction links with
  | nil => intro d q; exact ⟨[], by simp [admitLinks], by simp⟩
  | cons u rest ih =>
    intro d q
    simp only [admitLinks]
    split
    · exact ih d q
    · split
      · exact ih d q
      · next h2 =>
        have hlik : isLikelyDocumentationPage u = true := by
          by_contra hc
          exact h2 (by simpa using hc)
        split
        · exact ih d q
        · split
          · exact ⟨[u], rfl, by simpa using hlik⟩
          · obtain ⟨ext, he, hall⟩ :=
              ih (d ++ [u]) (if curDepth < maxDepth then q ++ [(u, curDepth + 1)] else q)
            refine ⟨[u] ++ ext, by simpa using he, ?_⟩
            intro x hx
            rcases List.mem_append.1 hx with hx | hx
            · rw [List.mem_singleton.1 hx]; exact hlik
            · exact hall x hx

theorem admitLinks_length (base : Url) (sameHostOnly : Bool)
    (maxDiscover maxDepth curDepth : Nat) :
    ∀ (links d : List String) (q : List (String × Nat)), d.length < maxDiscover →
      (admitLinks base sameHostOnly maxDiscover maxDepth curDepth links d q).1.length
        ≤ maxDiscover := by
  intro links
  induction links with
  | nil => intro d q hd; simpa [admitLinks] using Nat.le_of_lt hd
  | cons u rest ih =>
    intro d q hd
    simp only [admitLinks]
    split
    · exact ih d q hd
    · split
      · exact ih d q hd
      · split
        · exact ih d q hd
        · split
          · simpa using hd
          · next hcap =>
            exact ih (d ++ [u]) _ (by simpa using Nat.lt_of_not_le hcap)

theorem crawlLoop_discStep (env : DiscoveryEnv) (base : Url) (sameHostOnly : Bool)
    (maxDiscover maxDepth : Nat) :
    ∀ (fuel : Nat) (st : CrawlState), st.discovered.length ≤ maxDiscover →
      discStep maxDiscover st.discovered
          (crawlLoop env base sameHostOnly maxDiscover maxDepth fuel st).discovered ∧
        (crawlLoop env base sameHostOnly maxDiscover maxDepth fuel st).discovered.length
          ≤ maxDiscover := by
  intro fuel
  induction fuel with
  | zero => intro st hst; exact ⟨discStep_refl _ _, hst⟩
  | succ fuel ih =>
    intro st hst
    simp only [crawlLoop]
    by_cases hcap : maxDiscover ≤ st.discovered.length
    · rw [if_pos hcap]; exact ⟨discStep_refl _ _, hst⟩
    · rw [if_neg hcap]
      match hq : st.queue with
      | [] => exact ⟨discStep_refl _ _, hst⟩
      | (url, depth) :: rest =>
        dsimp only
        by_cases hdep : maxDepth < depth
        · rw [if_pos hdep]; exact ih _ hst
        · rw [if_neg hdep]
          by_cases hseen : url ∈ st.seen
          · rw [if_pos hseen]; exact ih _ hst
          · rw [if_neg hseen]
            cases hpl : env.pageLinks url with
            | error e => exact ih _ hst
            | ok links =>
              have hext := admitLinks_extends base sameHostOnly maxDiscover maxDepth depth
                links st.discovered rest
              have hlen := admitLinks_length base sameHostOnly maxDiscover maxDepth depth
                links st.discovered rest (Nat.lt_of_not_le hcap)
              have hstep : discStep maxDiscover st.discovered
                  (admitLinks base sameHostOnly maxDiscover maxDepth depth links
                    st.discovered rest).1 := ⟨hext, fun _ => hlen⟩
              have := ih
                ⟨(admitLinks base sameHostOnly maxDiscover maxDepth depth links
                    st.discovered rest).1,
                 st.seen ++ [url],
                 (admitLinks base sameHostOnly maxDiscover maxDepth depth links
                    st.discovered rest).2,
                 pushFetched (pushAttempt st.diag url) url⟩ hlen
              exact ⟨discStep_trans hstep this.1, this.2⟩

theorem normalizePositiveInt_pos (value : Option Int) (defaultValue maxValue : Nat)
    (hd : 1 ≤ defaultValue) : 1 ≤ normalizePositiveInt value defaultValue maxValue := by
  cases value with
  | none => exact hd
  | some i =>
    simp only [normalizePositiveInt]
    omega

theorem discStep_head_mem {m : Nat} {nb : String} {d : List String}
    (h : discStep m [nb] d) :
    d.head? = some nb ∧ ∀ u ∈ d, u ≠ nb → isLikelyDocumentationPage u = true := by
  obtain ⟨⟨ext, he, hall⟩, -⟩ := h
  subst he
  refine ⟨rfl, ?_⟩
  intro u hu hne
  rcases List.mem_cons.1 (by simpa using hu) with he | he
  · exact absurd he hne
  · exact hall u he

theorem discoverCore_spec (env : DiscoveryEnv) (b0 : Url) (opts : DiscoverOptionsM) :
    (discoverCore env b0 opts).urls.length ≤ normalizePositiveInt opts.maxDiscover 300 2000 ∧
    (discoverCore env b0 opts).urls.head? = some ({ b0 with hash := "" } : Url).toStr ∧
    ∀ u ∈ (discoverCore env b0 opts).urls, u ≠ ({ b0 with hash := "" } : Url).toStr →
      isLikelyDocumentationPage u = true := by
  have hpos : 1 ≤ normalizePositiveInt opts.maxDiscover 300 2000 :=
    normalizePositiveInt_pos _ _ _ (by norm_num)
  set m := normalizePositiveInt opts.maxDiscover 300 2000 with hm
  set base : Url := { b0 with hash := "" } with hbase
  set nb := base.toStr with hnb
  have hst0 : ([nb] : List String).length ≤ m := by simpa using hpos
  have hkey : discStep m [nb] (discoverCore env b0 opts).urls ∧
      (discoverCore env b0 opts).urls.length ≤ m := by
    simp only [discoverCore]
    by_cases hii : opts.includeIndexes <;> by_cases hil : opts.includeLinks <;>
      simp only [hii, hil, if_true, if_false]
    · have h1 := runIndexesPhase_discStep env base opts.sameHostOnly m
        ⟨[nb], ⟨[], [], []⟩⟩ hst0
      have h2 := crawlLoop_discStep env base opts.sameHostOnly m
        (normalizePositiveInt opts.maxDepth 2 5) (m + 2)
        ⟨(runIndexesPhase env base opts.sameHostOnly m ⟨[nb], ⟨[], [], []⟩⟩).discovered, [],
          [(nb, 0)],
          (runIndexesPhase env base opts.sameHostOnly m ⟨[nb], ⟨[], [], []⟩⟩).diag⟩ h1.2
      exact ⟨discStep_trans h1.1 h2.1, h2.2⟩
    · exact runIndexesPhase_discStep env base opts.sameHostOnly m ⟨[nb], ⟨[], [], []⟩⟩ hst0
    · have h2 := crawlLoop_discStep env base opts.sameHostOnly m
        (normalizePositiveInt opts.maxDepth 2 5) (m + 2) ⟨[nb], [], [(nb, 0)], ⟨[], [], []⟩⟩ hst0
      exact h2
    · exact ⟨discStep_refl _ _, hst0⟩
  obtain ⟨hd, hmem⟩ := discStep_head_mem hkey.1
  exact ⟨hkey.2, hd, hmem⟩

/-- C1 (amended): when the base URL parses, `discoverDocumentationUrls`
returns at most `maxDiscover` URLs (clamped to [1,2000], default 300);
the normalized base URL is seeded first (index 0) unconditionally — even
when its own path extension is blocklisted — and every other returned
URL passes the non-document-extension blocklist. -/
theorem discover_bounded_and_filtered (env : DiscoveryEnv) (baseUrl : String)
    (opts : DiscoverOptionsM) (res : DiscoverResultM)
    (h : discoverDocumentationUrls env baseUrl opts = some res) :
    res.urls.length ≤ normalizePositiveInt opts.maxDiscover 300 2000 ∧
    ∃ nb, normalizeUrl? baseUrl = some nb ∧ res.urls.head? = some nb ∧
      ∀ u ∈ res.urls, u ≠ nb → isLikelyDocumentationPage u = true := by
  unfold discoverDocumentationUrls at h
  cases hp : parseUrl baseUrl with
  | none => rw [hp] at h; simp at h
  | some b0 =>
    rw [hp] at h
    simp only [Option.some.injEq] at h
    subst h
    have hspec := discoverCore_spec env b0 opts
    refine ⟨hspec.1, ({ b0 with hash := "" } : Url).toStr, ?_, hspec.2.1, hspec.2.2⟩
    simp [normalizeUrl?, hp]

/-- The trivial network environment: every fetch fails. -/
def emptyEnv : DiscoveryEnv :=
  ⟨fun _ => .error "fetch failed", fun _ => .error "fetch failed", fun _ => .error "fetch failed"⟩

/-- The discovery result the witness reasons about. -/
def discoverWitnessRes : DiscoverResultM :=
  (discoverDocumentationUrls emptyEnv "https://example.com/docs" {}).getD ⟨[], ⟨[], [], []⟩⟩

/-- Witness for C1 at a concrete base URL and environment. -/
theorem discover_bounded_and_filtered_witness :
    discoverWitnessRes.urls.length
        ≤ normalizePositiveInt ({} : DiscoverOptionsM).maxDiscover 300 2000 ∧
    ∃ nb, normalizeUrl? "https://example.com/docs" = some nb ∧
      discoverWitnessRes.urls.head? = some nb ∧
      ∀ u ∈ discoverWitnessRes.urls, u ≠ nb → isLikelyDocumentationPage u = true :=
  discover_bounded_and_filtered emptyEnv "https://example.com/docs" {} discoverWitnessRes rfl

/-- Counterexample to C1 as stated: the seeded base URL is added to the
discovered set without passing `isLikelyDocumentationPage`, so a base
URL with a blocklisted `.png` extension appears in the returned set. -/
theorem discover_returns_blocked_base_url :
    (discoverDocumentationUrls emptyEnv "https://example.com/logo.png" {}).map
        (fun r => r.urls) = some ["https://example.com/logo.png"] ∧
    isLikelyDocumentationPage "https://example.com/logo.png" = false := by
  constructor
  · rfl
  · rfl

/-! ## Local persistence of crawl bundles (unnamed/part_006:
writePreloadBundleToLocal, updateLocalSitesIndex,
annotateSuggestedDocsInLocalDir, mergeWithExistingDocIndex)

The local store under `local/<slug>/` is modelled as explicit maps: the
per-slug `site-index.json`, the per-document Markdown content files and
`.index.json` files (keyed by slug and file name), and the global
`sites-index.json` registry. All writes in the modelled run succeed (the
claims describe the successful-persistence behaviour; a thrown
filesystem error flips `enabled` off and leaves the claims' files in
whatever prefix was written). -/

structure LocalSitesIndexEntry where
  slug : String
  baseUrl : String
  totalDocs : Nat
  updatedAt : String
deriving DecidableEq, Repr

structure LocalFS where
  siteIndexFiles : String → Option PreloadSiteIndex
  contentFiles : String → String → Option String
  indexFiles : String → String → Option PreloadDocIndex
  sitesIndex : Option (List LocalSitesIndexEntry)

def setSiteIndexFile (fs : LocalFS) (slug : String) (v : PreloadSiteIndex) : LocalFS :=
  { fs with siteIndexFiles := fun s => if s = slug then some v else fs.siteIndexFiles s }

def setContentFile (fs : LocalFS) (slug f : String) (v : String) : LocalFS :=
  { fs with contentFiles := fun s g => if s = slug ∧ g = f then some v else fs.contentFiles s g }

def setIndexFile (fs : LocalFS) (slug f : String) (v : PreloadDocIndex) : LocalFS :=
  { fs with indexFiles := fun s g => if s = slug ∧ g = f then some v else fs.indexFiles s g }

/-- `normalizeBaseUrlForName`: hostname plus pathname with trailing
slashes stripped, lowercased; the raw string when it does not parse. -/
def normalizeBaseUrlForName (baseUrl : String) : String :=
  match parseUrl baseUrl with
  | some p =>
    lowerStr (p.host ++ String.mk ((p.pathname.toList.reverse.dropWhile (· = '/')).reverse))
  | none => lowerStr baseUrl

/-- `slugify` of `part_006` (empty slug falls back to "doc"). -/
def slugify (value : String) : String :=
  let s := slugCore value
  if s = "" then "doc" else s

/-- `finalDirectoryNameFromBaseUrl`. -/
def finalDirectoryNameFromBaseUrl (baseUrl : String) : String :=
  let slug := slugify (normalizeBaseUrlForName baseUrl)
  if slug = "" then "docs" else slug

/-- `normalizeLocalComparableUrl` of `part_006`: strip fragment and
query, drop a single trailing slash. -/
def normalizeLocalComparableUrl (url : String) : String :=
  match parseUrl url with
  | none => url
  | some u =>
    let s := ({ u with hash := "", search := "" } : Url).toStr
    if strEndsWith s "/" then String.mk s.toList.dropLast else s

/-- `parseMarkdownLinkTarget`: angle-bracketed targets, else split at the
first whitespace run (a trimmed nonempty target always matches the
fallback `^(\S+)(\s+.+)?$`). -/
def parseMarkdownLinkTarget (rawTarget : String) : Option (String × String) :=
  let target := strTrim rawTarget
  if target = "" then none
  else
    let fallback : Option (String × String) :=
      let href := target.toList.takeWhile (fun c => ¬ isWsChar c)
      some (String.mk href, String.mk (target.toList.drop href.length))
    if strStartsWith target "<" then
      match listIndexOf? ['>'] target.toList with
      | some closing =>
        if 1 < closing then
          some (String.mk ((target.toList.drop 1).take (closing - 1)),
                String.mk (target.toList.drop (closing + 1)))
        else fallback
      | none => fallback
    else fallback

/-- The fuelled scanner behind `rewriteMarkdownLinksToLocal`: walk the
Markdown, and at each non-image `[label](target)` match whose resolved
target is a locally stored document, rewrite the target to the local
file name plus the original fragment and title suffix. `prev` is the
character before the current position (for the image `!` check). -/
def rewriteLinksFuel (sourceUrl : String) (urlToLocalFile : List (String × String)) :
    Nat → Option Char → List Char → List Char
  | 0, _, cs => cs
  | fuel + 1, prev, cs =>
    match cs with
    | [] => []
    | '[' :: rest =>
      match parseLinkBody rest with
      | some (label, target, remaining) =>
        let full := '[' :: (label ++ (']' :: '(' :: target) ++ [')'])
        let out :=
          if prev = some '!' then full
          else
            match parseMarkdownLinkTarget (String.mk target) with
            | none => full
            | some ht =>
              match parseUrl sourceUrl with
              | none => full
              | some srcU =>
                let resolved := resolveAgainst srcU ht.1
                match mapGet? urlToLocalFile (normalizeLocalComparableUrl resolved.toStr) with
                | none => full
                | some localFile =>
                  '[' :: (label ++ (']' :: '(' :: (localFile ++ resolved.hash ++ ht.2).toList)
                    ++ [')'])
        out ++ rewriteLinksFuel sourceUrl urlToLocalFile fuel (some ')') remaining
      | none => '[' :: rewriteLinksFuel sourceUrl urlToLocalFile fuel (some '[') rest
    | c :: rest => c :: rewriteLinksFuel sourceUrl urlToLocalFile fuel (some c) rest

/-- `rewriteMarkdownLinksToLocal`. -/
def rewriteMarkdownLinksToLocal (markdown sourceUrl : String)
    (urlToLocalFile : List (String × String)) : String :=
  String.mk (rewriteLinksFuel sourceUrl urlToLocalFile markdown.toList.length none markdown.toList)

/-- `rewriteDocIndexLinksToLocal`. -/
def rewriteDocIndexLinksToLocal (docIndex : PreloadDocIndex)
    (urlToLocalFile : List (String × String)) : PreloadDocIndex :=
  { docIndex with
    links := docIndex.links.map fun link =>
      match parseUrl link.url with
      | none => link
      | some parsed =>
        match mapGet? urlToLocalFile (normalizeLocalComparableUrl parsed.toStr) with
        | none => link
        | some localFile => { link with url := localFile ++ parsed.hash } }

/-- `mergeWithExistingDocIndex`: regenerate doc/headings/links, keep an
existing `suggested` array (even an empty one) over the generated one;
an unreadable existing file yields the generated index unchanged. -/
def mergeWithExistingDocIndex (existing : Option PreloadDocIndex)
    (generated : PreloadDocIndex) : PreloadDocIndex :=
  match existing with
  | none => generated
  | some ex =>
    { doc := generated.doc
      headings := generated.headings
      links := generated.links
      suggested :=
        match ex.suggested with
        | some s => some s
        | none => generated.suggested }

/-- The registry sort comparator (`a.slug.localeCompare(b.slug)`). -/
def sitesSlugLe (a b : LocalSitesIndexEntry) : Prop := strLeB a.slug b.slug = true

instance : DecidableRel sitesSlugLe := fun a b => by unfold sitesSlugLe; infer_instance

instance : IsTotal LocalSitesIndexEntry sitesSlugLe :=
  ⟨fun a b => charListLe_total a.slug.toList b.slug.toList⟩

instance : IsTrans LocalSitesIndexEntry sitesSlugLe :=
  ⟨fun _ _ _ h1 h2 => charListLe_trans _ _ _ h1 h2⟩

/-- `updateLocalSitesIndex`: sanitize the current registry (drop entries
with a falsy slug or baseUrl, default a falsy updatedAt to now), drop
the entry with the new slug, append the new entry, sort by slug. -/
def updateLocalSitesIndex (current : Option (List LocalSitesIndexEntry))
    (nextEntry : LocalSitesIndexEntry) (now : String) : List LocalSitesIndexEntry :=
  let cur : List LocalSitesIndexEntry :=
    match current with
    | none => []
    | some sites =>
      (sites.filter fun s => s.slug ≠ "" ∧ s.baseUrl ≠ "").map fun s =>
        { s with updatedAt := if s.updatedAt = "" then now else s.updatedAt }
  let without := cur.filter fun s => s.slug ≠ nextEntry.slug
  List.insertionSort sitesSlugLe (without ++ [nextEntry])

/-- The stop-word list of `tokenizeForOverlap` (the source lists "into"
twice; a set membership test makes the duplicate harmless). -/
def stopWords : List String :=
  ["the", "and", "for", "with", "that", "this", "from", "your", "into", "when", "where",
   "have", "more", "using", "used", "than", "will", "been", "they", "their", "only",
   "about", "into", "over", "also", "such", "just", "each", "after", "before", "through",
   "while", "between", "under", "very"]

def az09 (c : Char) : Bool := ('a' ≤ c ∧ c ≤ 'z') ∨ ('0' ≤ c ∧ c ≤ '9')

/-- Maximal `[a-z0-9]` runs, via an accumulator (reversed) for the run
being read. -/
def tokenRunsAux : List Char → List Char → List (List Char)
  | acc, [] => if acc = [] then [] else [acc.reverse]
  | acc, c :: rest =>
    if az09 c then tokenRunsAux (c :: acc) rest
    else if acc = [] then tokenRunsAux [] rest
    else acc.reverse :: tokenRunsAux [] rest

/-- Drop `https?://\S+` spans (each replaced by one space), fuelled by
the list length. -/
def removeUrlsFuel : Nat → List Char → List Char
  | 0, cs => cs
  | fuel + 1, cs =>
    match cs with
    | [] => []
    | c :: rest =>
      if "https://".toList.isPrefixOf cs ∨ "http://".toList.isPrefixOf cs then
        let span := cs.takeWhile fun ch => ¬ isWsChar ch
        let prefixLen := if "https://".toList.isPrefixOf cs then 8 else 7
        if prefixLen < span.length then ' ' :: removeUrlsFuel fuel (cs.drop span.length)
        else c :: removeUrlsFuel fuel rest
      else c :: removeUrlsFuel fuel rest

def dedupeStrs (xs : List String) : List String :=
  go [] xs
where
  go (seen : List String) : List String → List String
    | [] => []
    | x :: rest => if x ∈ seen then go seen rest else x :: go (seen ++ [x]) rest

/-- `tokenizeForOverlap`: lowercase title+content, map Markdown
punctuation to spaces, drop URL spans, collect `[a-z0-9]{3,}` runs, drop
stop words; the JS `Set` is a duplicate-free insertion-ordered list. -/
def tokenizeForOverlap (content title : String) : List String :=
  let punct : List Char :=
    [Char.ofNat 96, '*', '_', '#', '[', ']', '(', ')', '>', '~', '-']
  let combined := (lowerStr (title ++ "\n" ++ content)).toList.map fun c =>
    if c ∈ punct then ' ' else c
  let cleaned := removeUrlsFuel combined.length combined
  let words := ((tokenRunsAux [] cleaned).filter fun r => 3 ≤ r.length).map String.mk
  dedupeStrs (words.filter fun w => w ∉ stopWords)

/-- `countSharedTerms` (iterate the smaller set). -/
def countSharedTerms (a b : List String) : Nat :=
  let small := if a.length ≤ b.length then a else b
  let large := if a.length ≤ b.length then b else a
  (small.filter fun t => t ∈ large).length

/-- `Number(score.toFixed(3))`: the stored score rounded to three
decimals. -/
def roundTo3 (q : Rat) : Rat := (round (q * 1000) : Int) / 1000

/-- The suggestion sort comparator: score desc, sharedTerms desc, title
asc. -/
def suggLe (a b : PreloadDocSummary × Rat × Nat) : Prop :=
  b.2.1 < a.2.1 ∨ (a.2.1 = b.2.1 ∧
    (b.2.2 < a.2.2 ∨ (a.2.2 = b.2.2 ∧ strLeB a.1.title b.1.title = true)))

instance : DecidableRel suggLe := fun a b => by unfold suggLe; infer_instance

/-- The pairwise token-overlap computation of
`annotateSuggestedDocsInLocalDir`: tokenize every document (falling back
to the title when its content file is unreadable), then for each source
document keep pairs with ≥ 8 shared terms and overlap ratio ≥ 0.18,
sorted, top 10. Returns the `byDocId` map. -/
def annotateCompute (docs : List PreloadDocSummary) (readContent : String → Option String) :
    List (String × List PreloadSuggestedDoc) :=
  let tokenized := docs.map fun doc =>
    match readContent doc.contentFile with
    | some content => (doc, tokenizeForOverlap content doc.title)
    | none => (doc, tokenizeForOverlap doc.title doc.title)
  tokenized.map fun src =>
    let suggestions := tokenized.filterMap fun target =>
      if src.1.id = target.1.id then none
      else
        let sharedTerms := countSharedTerms src.2 target.2
        if sharedTerms < 8 then none
        else
          let score : Rat := (sharedTerms : Rat) / ((max 1 (min src.2.length target.2.length) : Nat) : Rat)
          if score < (18 : Rat) / 100 then none
          else some (target.1, score, sharedTerms)
    let sorted := List.insertionSort suggLe suggestions
    (src.1.id,
      (sorted.take 10).map fun t =>
        { docId := t.1.id, title := t.1.title, path := t.1.path, url := t.1.url,
          contentFile := t.1.contentFile, indexFile := t.1.indexFile,
          overlapScore := roundTo3 t.2.1, sharedTerms := t.2.2 })

def mapGetSugg (m : List (String × List PreloadSuggestedDoc)) (k : String) :
    Option (List PreloadSuggestedDoc) :=
  (m.find? (·.1 = k)).map (·.2)

/-- The per-document body of the annotation loop: read the index file
(skipping the document on a read failure), keep a non-empty existing
`suggested`, otherwise store the computed suggestions. -/
def annotateDocStep (slug : String) (byDocId : List (String × List PreloadSuggestedDoc))
    (fs : LocalFS) (doc : PreloadDocSummary) : LocalFS :=
  match fs.indexFiles slug doc.indexFile with
  | none => fs
  | some parsed =>
    let suggestions := (mapGetSugg byDocId doc.id).getD []
    let newSuggested :=
      match parsed.suggested with
      | some s => if s ≠ [] then some s else some suggestions
      | none => some suggestions
    setIndexFile fs slug doc.indexFile { parsed with suggested := newSuggested }

/-- `annotateSuggestedDocsInLocalDir`. -/
def annotateSuggestedDocsInLocalDir (fs : LocalFS) (slug : String)
    (docs : List PreloadDocSummary) : LocalFS :=
  let byDocId := annotateCompute docs fun f => fs.contentFiles slug f
  docs.foldl (annotateDocStep slug byDocId) fs

/-- The `urlToLocalFile` map built from the batch summaries (url and
baseUrl-resolved path both mapping to the content file). -/
def buildUrlToLocalFile (bundle : PreloadBundle) : List (String × String) :=
  bundle.siteIndex.docs.foldl
    (fun m summary =>
      let m1 := mapSet m (normalizeLocalComparableUrl summary.url) summary.contentFile
      if summary.path ≠ "" then
        match parseUrl bundle.siteIndex.baseUrl with
        | none => m1
        | some b =>
          mapSet m1 (normalizeLocalComparableUrl (resolveAgainst b summary.path).toStr)
            summary.contentFile
      else m1)
    []

/-- The link-rewritten Markdown written for one document (the source
content is looked up in the batch by url and path, "" when absent). -/
def rewrittenContentFor (bundle : PreloadBundle) (urlToLocalFile : List (String × String))
    (doc : PreloadDocSummary) : String :=
  rewriteMarkdownLinksToLocal
    (((bundle.docs.find? fun e => e.url = doc.url ∧ e.path = doc.path).map (·.content)).getD "")
    doc.url urlToLocalFile

/-- The freshly generated per-document index for one document (empty
when the bundle has no entry for the id, link-rewritten otherwise). -/
def generatedDocIndex (bundle : PreloadBundle) (urlToLocalFile : List (String × String))
    (doc : PreloadDocSummary) : PreloadDocIndex :=
  match (bundle.docIndexes.find? (·.1 = doc.id)).map (·.2) with
  | none => { doc := doc, headings := [], links := [], suggested := none }
  | some pdi => rewriteDocIndexLinksToLocal pdi urlToLocalFile

/-- The per-document body of the main write loop: write the
link-rewritten Markdown content, merge the per-document index with any
existing one, write it. -/
def writeDocEntry (slug : String) (bundle : PreloadBundle)
    (urlToLocalFile : List (String × String)) (fs : LocalFS) (doc : PreloadDocSummary) :
    LocalFS :=
  let fsA := setContentFile fs slug doc.contentFile
    (rewrittenContentFor bundle urlToLocalFile doc)
  let mergedIndex := mergeWithExistingDocIndex (fsA.indexFiles slug doc.indexFile)
    (generatedDocIndex bundle urlToLocalFile doc)
  setIndexFile fsA slug doc.indexFile mergedIndex

/-- `writePreloadBundleToLocal` up to (and excluding) the suggestion
annotation pass: overwrite the slug's `site-index.json` with the batch's
site index, write every document's content and merged index file, merge
the global registry. -/
def writeBundleMain (bundle : PreloadBundle) (now : String) (fs : LocalFS) : LocalFS :=
  let slug := finalDirectoryNameFromBaseUrl bundle.siteIndex.baseUrl
  let fs1 := setSiteIndexFile fs slug bundle.siteIndex
  let urlToLocalFile := buildUrlToLocalFile bundle
  let fs2 := bundle.siteIndex.docs.foldl (writeDocEntry slug bundle urlToLocalFile) fs1
  { fs2 with
    sitesIndex := some (updateLocalSitesIndex fs2.sitesIndex
      { slug := slug, baseUrl := bundle.siteIndex.baseUrl,
        totalDocs := bundle.siteIndex.docs.length, updatedAt := now } now) }

/-- Model of `writePreloadBundleToLocal` (the successful path; a
disabled result is returned unchanged). -/
def writePreloadBundleToLocal (bundle : PreloadBundle) (enabled : Bool) (now : String)
    (fs : LocalFS) : LocalFS :=
  if ¬ enabled then fs
  else
    annotateSuggestedDocsInLocalDir (writeBundleMain bundle now fs)
      (finalDirectoryNameFromBaseUrl bundle.siteIndex.baseUrl) bundle.siteIndex.docs

theorem foldl_proj_eq {α β : Type} (proj : LocalFS → β) (f : LocalFS → α → LocalFS)
    (hf : ∀ fs a, proj (f fs a) = proj fs) :
    ∀ (l : List α) (fs : LocalFS), proj (l.foldl f fs) = proj fs := by
  intro l
  induction l with
  | nil => intro fs; rfl
  | cons a rest ih =>
    intro fs
    simp only [List.foldl_cons]
    rw [ih, hf]

theorem annotateDocStep_siteIndexFiles (slug : String)
    (m : List (String × List PreloadSuggestedDoc)) (fs : LocalFS) (doc : PreloadDocSummary) :
    (annotateDocStep slug m fs doc).siteIndexFiles = fs.siteIndexFiles := by
  unfold annotateDocStep
  split
  · rfl
  · rfl

theorem annotateDocStep_sitesIndex (slug : String)
    (m : List (String × List PreloadSuggestedDoc)) (fs : LocalFS) (doc : PreloadDocSummary) :
    (annotateDocStep slug m fs doc).sitesIndex = fs.sitesIndex := by
  unfold annotateDocStep
  split
  · rfl
  · rfl

theorem annotateDocStep_contentFiles (slug : String)
    (m : List (String × List PreloadSuggestedDoc)) (fs : LocalFS) (doc : PreloadDocSummary) :
    (annotateDocStep slug m fs doc).contentFiles = fs.contentFiles := by
  unfold annotateDocStep
  split
  · rfl
  · rfl

theorem annotateDocStep_indexFiles_other_slug (slug : String)
    (m : List (String × List PreloadSuggestedDoc)) (fs : LocalFS) (doc : PreloadDocSummary)
    (s f : String) (hs : s ≠ slug) :
    (annotateDocStep slug m fs doc).indexFiles s f = fs.indexFiles s f := by
  unfold annotateDocStep
  split
  · rfl
  · simp [setIndexFile, hs]

theorem annotateDocStep_indexFiles_other_file (slug : String)
    (m : List (String × List PreloadSuggestedDoc)) (fs : LocalFS) (doc : PreloadDocSummary)
    (f : String) (hf : f ≠ doc.indexFile) :
    (annotateDocStep slug m fs doc).indexFiles slug f = fs.indexFiles slug f := by
  unfold annotateDocStep
  split
  · rfl
  · simp [setIndexFile, hf]

theorem writeDocEntry_siteIndexFiles (slug : String) (bundle : PreloadBundle)
    (m : List (String × String)) (fs : LocalFS) (doc : PreloadDocSummary) :
    (writeDocEntry slug bundle m fs doc).siteIndexFiles = fs.siteIndexFiles := rfl

theorem writeDocEntry_sitesIndex (slug : String) (bundle : PreloadBundle)
    (m : List (String × String)) (fs : LocalFS) (doc : PreloadDocSummary) :
    (writeDocEntry slug bundle m fs doc).sitesIndex = fs.sitesIndex := rfl

theorem writeDocEntry_contentFiles_other_slug (slug : String) (bundle : PreloadBundle)
    (m : List (String × String)) (fs : LocalFS) (doc : PreloadDocSummary) (s f : String)
    (hs : s ≠ slug) :
    (writeDocEntry slug bundle m fs doc).contentFiles s f = fs.contentFiles s f := by
  simp [writeDocEntry, setIndexFile, setContentFile, hs]

theorem writeDocEntry_indexFiles_other_slug (slug : String) (bundle : PreloadBundle)
    (m : List (String × String)) (fs : LocalFS) (doc : PreloadDocSummary) (s f : String)
    (hs : s ≠ slug) :
    (writeDocEntry slug bundle m fs doc).indexFiles s f = fs.indexFiles s f := by
  simp [writeDocEntry, setIndexFile, setContentFile, hs]

theorem writeDocEntry_indexFiles_other_file (slug : String) (bundle : PreloadBundle)
    (m : List (String × String)) (fs : LocalFS) (doc : PreloadDocSummary) (f : String)
    (hf : f ≠ doc.indexFile) :
    (writeDocEntry slug bundle m fs doc).indexFiles slug f = fs.indexFiles slug f := by
  simp [writeDocEntry, setIndexFile, setContentFile, hf]

theorem foldl_writeDoc_indexFiles_other (slug : String) (bundle : PreloadBundle)
    (m : List (String × String)) :
    ∀ (l : List PreloadDocSummary) (fs : LocalFS) (f : String),
      (∀ d ∈ l, f ≠ d.indexFile) →
      (l.foldl (writeDocEntry slug bundle m) fs).indexFiles slug f = fs.indexFiles slug f := by
  intro l
  induction l with
  | nil => intro fs f _; rfl
  | cons d rest ih =>
    intro fs f hf
    simp only [List.foldl_cons]
    rw [ih _ _ (fun x hx => hf x (List.mem_cons_of_mem _ hx)),
      writeDocEntry_indexFiles_other_file _ _ _ _ _ _ (hf d (List.mem_cons_self _ _))]

theorem foldl_annotate_indexFiles_other (slug : String)
    (m : List (String × List PreloadSuggestedDoc)) :
    ∀ (l : List PreloadDocSummary) (fs : LocalFS) (f : String),
      (∀ d ∈ l, f ≠ d.indexFile) →
      (l.foldl (annotateDocStep slug m) fs).indexFiles slug f = fs.indexFiles slug f := by
  intro l
  induction l with
  | nil => intro fs f _; rfl
  | cons d rest ih =>
    intro fs f hf
    simp only [List.foldl_cons]
    rw [ih _ _ (fun x hx => hf x (List.mem_cons_of_mem _ hx)),
      annotateDocStep_indexFiles_other_file _ _ _ _ _ (hf d (List.mem_cons_self _ _))]

theorem foldl_writeDoc_at (slug : String) (bundle : PreloadBundle) (m : List (String × String))
    (l1 l2 : List PreloadDocSummary) (doc : PreloadDocSummary) (fs : LocalFS)
    (h1 : ∀ d ∈ l1, doc.indexFile ≠ d.indexFile) (h2 : ∀ d ∈ l2, doc.indexFile ≠ d.indexFile) :
    ((l1 ++ doc :: l2).foldl (writeDocEntry slug bundle m) fs).indexFiles slug doc.indexFile
      = some (mergeWithExistingDocIndex (fs.indexFiles slug doc.indexFile)
          (generatedDocIndex bundle m doc)) := by
  rw [List.foldl_append, List.foldl_cons]
  rw [foldl_writeDoc_indexFiles_other slug bundle m l2 _ doc.indexFile h2]
  have hmid := foldl_writeDoc_indexFiles_other slug bundle m l1 fs doc.indexFile h1
  simp [writeDocEntry, setIndexFile, setContentFile, hmid]

theorem foldl_annotate_at (slug : String) (byDocId : List (String × List PreloadSuggestedDoc))
    (l1 l2 : List PreloadDocSummary) (doc : PreloadDocSummary) (fs : LocalFS)
    (parsed : PreloadDocIndex)
    (h1 : ∀ d ∈ l1, doc.indexFile ≠ d.indexFile) (h2 : ∀ d ∈ l2, doc.indexFile ≠ d.indexFile)
    (hread : fs.indexFiles slug doc.indexFile = some parsed) :
    ((l1 ++ doc :: l2).foldl (annotateDocStep slug byDocId) fs).indexFiles slug doc.indexFile
      = some { parsed with suggested :=
          match parsed.suggested with
          | some s => if s ≠ [] then some s else some ((mapGetSugg byDocId doc.id).getD [])
          | none => some ((mapGetSugg byDocId doc.id).getD []) } := by
  rw [List.foldl_append, List.foldl_cons]
  have hmid := foldl_annotate_indexFiles_other slug byDocId l1 fs doc.indexFile h1
  rw [foldl_annotate_indexFiles_other slug byDocId l2 _ doc.indexFile h2]
  have hread2 : (l1.foldl (annotateDocStep slug byDocId) fs).indexFiles slug doc.indexFile
      = some parsed := hmid.trans hread
  simp [annotateDocStep, hread2, setIndexFile]

theorem foldl_annotate_indexFiles_other_slug (slug : String)
    (m : List (String × List PreloadSuggestedDoc)) :
    ∀ (l : List PreloadDocSummary) (fs : LocalFS) (s f : String), s ≠ slug →
      (l.foldl (annotateDocStep slug m) fs).indexFiles s f = fs.indexFiles s f := by
  intro l
  induction l with
  | nil => intro fs s f _; rfl
  | cons d rest ih =>
    intro fs s f hs
    simp only [List.foldl_cons]
    rw [ih _ _ _ hs, annotateDocStep_indexFiles_other_slug _ _ _ _ _ _ hs]

theorem foldl_writeDoc_contentFiles_other_slug (slug : String) (bundle : PreloadBundle)
    (m : List (String × String)) :
    ∀ (l : List PreloadDocSummary) (fs : LocalFS) (s f : String), s ≠ slug →
      (l.foldl (writeDocEntry slug bundle m) fs).contentFiles s f = fs.contentFiles s f := by
  intro l
  induction l with
  | nil => intro fs s f _; rfl
  | cons d rest ih =>
    intro fs s f hs
    simp only [List.foldl_cons]
    rw [ih _ _ _ hs, writeDocEntry_contentFiles_other_slug _ _ _ _ _ _ _ hs]

theorem foldl_writeDoc_indexFiles_other_slug (slug : String) (bundle : PreloadBundle)
    (m : List (String × String)) :
    ∀ (l : List PreloadDocSummary) (fs : LocalFS) (s f : String), s ≠ slug →
      (l.foldl (writeDocEntry slug bundle m) fs).indexFiles s f = fs.indexFiles s f := by
  intro l
  induction l with
  | nil => intro fs s f _; rfl
  | cons d rest ih =>
    intro fs s f hs
    simp only [List.foldl_cons]
    rw [ih _ _ _ hs, writeDocEntry_indexFiles_other_slug _ _ _ _ _ _ _ hs]

theorem annotate_siteIndexFiles (fs : LocalFS) (slug : String) (docs : List PreloadDocSummary) :
    (annotateSuggestedDocsInLocalDir fs slug docs).siteIndexFiles = fs.siteIndexFiles :=
  foldl_proj_eq LocalFS.siteIndexFiles _
    (fun fs d => annotateDocStep_siteIndexFiles slug _ fs d) docs fs

theorem annotate_sitesIndex (fs : LocalFS) (slug : String) (docs : List PreloadDocSummary) :
    (annotateSuggestedDocsInLocalDir fs slug docs).sitesIndex = fs.sitesIndex :=
  foldl_proj_eq LocalFS.sitesIndex _
    (fun fs d => annotateDocStep_sitesIndex slug _ fs d) docs fs

theorem annotate_contentFiles (fs : LocalFS) (slug : String) (docs : List PreloadDocSummary) :
    (annotateSuggestedDocsInLocalDir fs slug docs).contentFiles = fs.contentFiles :=
  foldl_proj_eq LocalFS.contentFiles _
    (fun fs d => annotateDocStep_contentFiles slug _ fs d) docs fs

theorem writeBundleMain_siteIndexFiles (bundle : PreloadBundle) (now : String) (fs : LocalFS)
    (s : String) :
    (writeBundleMain bundle now fs).siteIndexFiles s
      = if s = finalDirectoryNameFromBaseUrl bundle.siteIndex.baseUrl
          then some bundle.siteIndex else fs.siteIndexFiles s := by
  show (bundle.siteIndex.docs.foldl
      (writeDocEntry (finalDirectoryNameFromBaseUrl bundle.siteIndex.baseUrl) bundle
        (buildUrlToLocalFile bundle))
      (setSiteIndexFile fs (finalDirectoryNameFromBaseUrl bundle.siteIndex.baseUrl)
        bundle.siteIndex)).siteIndexFiles s = _
  rw [foldl_proj_eq LocalFS.siteIndexFiles _
    (fun fs d => writeDocEntry_siteIndexFiles _ _ _ fs d)]
  rfl

theorem writeBundleMain_sitesIndex (bundle : PreloadBundle) (now : String) (fs : LocalFS) :
    (writeBundleMain bundle now fs).sitesIndex
      = some (updateLocalSitesIndex fs.sitesIndex
          { slug := finalDirectoryNameFromBaseUrl bundle.siteIndex.baseUrl,
            baseUrl := bundle.siteIndex.baseUrl,
            totalDocs := bundle.siteIndex.docs.length, updatedAt := now } now) := by
  show some (updateLocalSitesIndex
      (bundle.siteIndex.docs.foldl
        (writeDocEntry (finalDirectoryNameFromBaseUrl bundle.siteIndex.baseUrl) bundle
          (buildUrlToLocalFile bundle))
        (setSiteIndexFile fs (finalDirectoryNameFromBaseUrl bundle.siteIndex.baseUrl)
          bundle.siteIndex)).sitesIndex _ _) = _
  rw [foldl_proj_eq LocalFS.sitesIndex _
    (fun fs d => writeDocEntry_sitesIndex _ _ _ fs d)]
  rfl

theorem writeBundleMain_contentFiles_other_slug (bundle : PreloadBundle) (now : String)
    (fs : LocalFS) (s f : String)
    (hs : s ≠ finalDirectoryNameFromBaseUrl bundle.siteIndex.baseUrl) :
    (writeBundleMain bundle now fs).contentFiles s f = fs.contentFiles s f := by
  show (bundle.siteIndex.docs.foldl
      (writeDocEntry (finalDirectoryNameFromBaseUrl bundle.siteIndex.baseUrl) bundle
        (buildUrlToLocalFile bundle))
      (setSiteIndexFile fs (finalDirectoryNameFromBaseUrl bundle.siteIndex.baseUrl)
        bundle.siteIndex)).contentFiles s f = _
  rw [foldl_writeDoc_contentFiles_other_slug _ _ _ _ _ _ _ hs]
  rfl

theorem writeBundleMain_indexFiles_other_slug (bundle : PreloadBundle) (now : String)
    (fs : LocalFS) (s f : String)
    (hs : s ≠ finalDirectoryNameFromBaseUrl bundle.siteIndex.baseUrl) :
    (writeBundleMain bundle now fs).indexFiles s f = fs.indexFiles s f := by
  show (bundle.siteIndex.docs.foldl
      (writeDocEntry (finalDirectoryNameFromBaseUrl bundle.siteIndex.baseUrl) bundle
        (buildUrlToLocalFile bundle))
      (setSiteIndexFile fs (finalDirectoryNameFromBaseUrl bundle.siteIndex.baseUrl)
        bundle.siteIndex)).indexFiles s f = _
  rw [foldl_writeDoc_indexFiles_other_slug _ _ _ _ _ _ _ hs]
  rfl

theorem writeBundleMain_indexFiles_at (bundle : PreloadBundle) (now : String) (fs : LocalFS)
    (l1 l2 : List PreloadDocSummary) (doc : PreloadDocSummary)
    (hsplit : bundle.siteIndex.docs = l1 ++ doc :: l2)
    (h1 : ∀ d ∈ l1, doc.indexFile ≠ d.indexFile) (h2 : ∀ d ∈ l2, doc.indexFile ≠ d.indexFile) :
    (writeBundleMain bundle now fs).indexFiles
        (finalDirectoryNameFromBaseUrl bundle.siteIndex.baseUrl) doc.indexFile
      = some (mergeWithExistingDocIndex
          (fs.indexFiles (finalDirectoryNameFromBaseUrl bundle.siteIndex.baseUrl) doc.indexFile)
          (generatedDocIndex bundle (buildUrlToLocalFile bundle) doc)) := by
  show (bundle.siteIndex.docs.foldl
      (writeDocEntry (finalDirectoryNameFromBaseUrl bundle.siteIndex.baseUrl) bundle
        (buildUrlToLocalFile bundle))
      (setSiteIndexFile fs (finalDirectoryNameFromBaseUrl bundle.siteIndex.baseUrl)
        bundle.siteIndex)).indexFiles
      (finalDirectoryNameFromBaseUrl bundle.siteIndex.baseUrl) doc.indexFile = _
  rw [hsplit, foldl_writeDoc_at _ _ _ _ _ _ _ h1 h2]
  rfl

theorem nodup_key_split (key : PreloadDocSummary → String)
    (l1 l2 : List PreloadDocSummary) (doc : PreloadDocSummary)
    (hnd : ((l1 ++ doc :: l2).map key).Nodup) :
    (∀ d ∈ l1, key doc ≠ key d) ∧ (∀ d ∈ l2, key doc ≠ key d) := by
  rw [List.map_append, List.map_cons, List.nodup_append] at hnd
  obtain ⟨_, hr, hdisj⟩ := hnd
  constructor
  · intro d hd he
    exact hdisj (List.mem_map_of_mem key hd) (by rw [← he]; exact List.mem_cons_self _ _)
  · intro d hd he
    exact (List.nodup_cons.mp hr).1 (he ▸ List.mem_map_of_mem key hd)

theorem updateLocalSitesIndex_preserves (sites : List LocalSitesIndexEntry)
    (e nextEntry : LocalSitesIndexEntry) (now : String)
    (he : e ∈ sites) (hslug : e.slug ≠ nextEntry.slug)
    (hs : e.slug ≠ "") (hb : e.baseUrl ≠ "") (hu : e.updatedAt ≠ "") :
    e ∈ updateLocalSitesIndex (some sites) nextEntry now := by
  show e ∈ List.insertionSort sitesSlugLe
      ((((sites.filter fun s => s.slug ≠ "" ∧ s.baseUrl ≠ "").map fun s =>
        { s with updatedAt := if s.updatedAt = "" then now else s.updatedAt }).filter
          fun s => s.slug ≠ nextEntry.slug) ++ [nextEntry])
  have h1 : e ∈ (sites.filter fun s => s.slug ≠ "" ∧ s.baseUrl ≠ "").map fun s =>
      ({ s with updatedAt := if s.updatedAt = "" then now else s.updatedAt } :
        LocalSitesIndexEntry) := by
    have hmemf : e ∈ sites.filter fun s => s.slug ≠ "" ∧ s.baseUrl ≠ "" :=
      List.mem_filter.mpr ⟨he, by simp [hs, hb]⟩
    have heta : ({ e with updatedAt := if e.updatedAt = "" then now else e.updatedAt } :
        LocalSitesIndexEntry) = e := by
      cases e
      simp_all
    exact heta ▸ List.mem_map_of_mem _ hmemf
  have h2 : e ∈ ((sites.filter fun s => s.slug ≠ "" ∧ s.baseUrl ≠ "").map fun s =>
      ({ s with updatedAt := if s.updatedAt = "" then now else s.updatedAt } :
        LocalSitesIndexEntry)).filter fun s => s.slug ≠ nextEntry.slug :=
    List.mem_filter.mpr ⟨h1, by simp [hslug]⟩
  exact (List.perm_insertionSort sitesSlugLe _).mem_iff.mpr (List.mem_append_left _ h2)

/-- C2 (amended): persisting a batch under `local/<slug>/` OVERWRITES the
slug's `site-index.json` with the new batch's site index (the stored docs
list is exactly the batch's, not a merge with the previously stored one);
the global `sites-index.json` registry is merged by slug (every
well-formed entry for another slug survives, the new slug's entry is
refreshed with the batch's totalDocs and timestamp); and files under
every other slug are untouched. -/
theorem writePreloadBundleToLocal_overwrite_and_merge (bundle : PreloadBundle) (now : String)
    (fs : LocalFS) :
    (writePreloadBundleToLocal bundle true now fs).siteIndexFiles
        (finalDirectoryNameFromBaseUrl bundle.siteIndex.baseUrl) = some bundle.siteIndex ∧
    (writePreloadBundleToLocal bundle true now fs).sitesIndex
      = some (updateLocalSitesIndex fs.sitesIndex
          { slug := finalDirectoryNameFromBaseUrl bundle.siteIndex.baseUrl,
            baseUrl := bundle.siteIndex.baseUrl,
            totalDocs := bundle.siteIndex.docs.length, updatedAt := now } now) ∧
    (∀ sites e, fs.sitesIndex = some sites → e ∈ sites →
      e.slug ≠ finalDirectoryNameFromBaseUrl bundle.siteIndex.baseUrl →
      e.slug ≠ "" → e.baseUrl ≠ "" → e.updatedAt ≠ "" →
      ∀ sitesNew, (writePreloadBundleToLocal bundle true now fs).sitesIndex = some sitesNew →
        e ∈ sitesNew) ∧
    (∀ s, s ≠ finalDirectoryNameFromBaseUrl bundle.siteIndex.baseUrl →
      (writePreloadBundleToLocal bundle true now fs).siteIndexFiles s = fs.siteIndexFiles s ∧
      ∀ f, (writePreloadBundleToLocal bundle true now fs).contentFiles s f = fs.contentFiles s f ∧
        (writePreloadBundleToLocal bundle true now fs).indexFiles s f = fs.indexFiles s f) := by
  have hW : writePreloadBundleToLocal bundle true now fs
      = annotateSuggestedDocsInLocalDir (writeBundleMain bundle now fs)
          (finalDirectoryNameFromBaseUrl bundle.siteIndex.baseUrl) bundle.siteIndex.docs := rfl
  refine ⟨?_, ?_, ?_, ?_⟩
  · rw [hW, annotate_siteIndexFiles, writeBundleMain_siteIndexFiles, if_pos rfl]
  · rw [hW, annotate_sitesIndex, writeBundleMain_sitesIndex]
  · intro sites e hsites hmem hne hs hb hu sitesNew hnew
    rw [hW, annotate_sitesIndex, writeBundleMain_sitesIndex, hsites] at hnew
    injection hnew with hnew
    rw [← hnew]
    exact updateLocalSitesIndex_preserves sites e _ now hmem hne hs hb hu
  · intro s hs
    refine ⟨?_, fun f => ⟨?_, ?_⟩⟩
    · rw [hW, annotate_siteIndexFiles, writeBundleMain_siteIndexFiles, if_neg hs]
    · rw [hW, annotate_contentFiles, writeBundleMain_contentFiles_other_slug _ _ _ _ _ hs]
    · rw [hW]
      show (bundle.siteIndex.docs.foldl
          (annotateDocStep (finalDirectoryNameFromBaseUrl bundle.siteIndex.baseUrl)
            (annotateCompute bundle.siteIndex.docs fun g =>
              (writeBundleMain bundle now fs).contentFiles
                (finalDirectoryNameFromBaseUrl bundle.siteIndex.baseUrl) g))
          (writeBundleMain bundle now fs)).indexFiles s f = fs.indexFiles s f
      rw [foldl_annotate_indexFiles_other_slug _ _ _ _ _ _ hs,
        writeBundleMain_indexFiles_other_slug _ _ _ _ _ hs]

/-! Counterexample material for the merge reading of the docs list: a
slug that already stores a one-document site index, re-persisted from a
batch that does not contain that document. -/

def cexOldDoc : PreloadDocSummary :=
  { id := "doc-00001", path := "/old", url := "https://example.com/old",
    docsetType := "generic", title := "Old", description := "",
    contentFile := "old.md", indexFile := "old.index.json" }

def cexNewDoc : PreloadDocSummary :=
  { id := "doc-00001", path := "/new", url := "https://example.com/new",
    docsetType := "generic", title := "New", description := "",
    contentFile := "new.md", indexFile := "new.index.json" }

def cexOldSiteIndex : PreloadSiteIndex :=
  { version := 1, generatedAt := "T1", baseUrl := "https://example.com/docs",
    totalDocs := 1, docs := [cexOldDoc] }

def cexBundle : PreloadBundle :=
  { siteIndex :=
      { version := 1, generatedAt := "T2", baseUrl := "https://example.com/docs",
        totalDocs := 1, docs := [cexNewDoc] },
    docIndexes := [("doc-00001",
      { doc := cexNewDoc, headings := [], links := [], suggested := none })],
    docs := [{ path := "/new", url := "https://example.com/new",
               docsetType := "generic", content := "New body." }] }

def cexFs : LocalFS :=
  { siteIndexFiles := fun s => if s = "example-com-docs" then some cexOldSiteIndex else none,
    contentFiles := fun _ _ => none,
    indexFiles := fun _ _ => none,
    sitesIndex := none }

/-- C2 counterexample: the slug `example-com-docs` already stores a site
index containing `cexOldDoc`; persisting a new batch for the same base
URL that lacks that document stores a site index equal to the batch's
(so `cexOldDoc`'s entry is silently deleted, not merged). -/
theorem writeBundle_deletes_absent_docs :
    cexFs.siteIndexFiles "example-com-docs" = some cexOldSiteIndex ∧
    cexOldDoc ∈ cexOldSiteIndex.docs ∧
    (writePreloadBundleToLocal cexBundle true "T2" cexFs).siteIndexFiles "example-com-docs"
      = some cexBundle.siteIndex ∧
    cexOldDoc ∉ cexBundle.siteIndex.docs := by
  refine ⟨rfl, List.mem_singleton.mpr rfl, ?_, ?_⟩
  · exact rfl
  · simp [cexBundle, cexNewDoc, cexOldDoc]

/-- C6: round-trip preservation of suggestions through a re-persist. For
a document of the batch (with per-document index file names pairwise
distinct across the batch): if the document's index file on disk already
holds a non-empty `suggested` list, the persisted index file holds that
list verbatim; and when no non-empty `suggested` list exists yet (the
file is absent, or holds no list or an empty one) and the batch's own
index for the document carries none, the persisted `suggested` is the
freshly computed suggestion list. -/
theorem suggested_preserved_and_recomputed (bundle : PreloadBundle) (now : String)
    (fs : LocalFS) (doc : PreloadDocSummary)
    (hdoc : doc ∈ bundle.siteIndex.docs)
    (hnd : (bundle.siteIndex.docs.map (·.indexFile)).Nodup) :
    (∀ ex s, fs.indexFiles (finalDirectoryNameFromBaseUrl bundle.siteIndex.baseUrl)
          doc.indexFile = some ex →
      ex.suggested = some s → s ≠ [] →
      ∃ idx, (writePreloadBundleToLocal bundle true now fs).indexFiles
          (finalDirectoryNameFromBaseUrl bundle.siteIndex.baseUrl) doc.indexFile = some idx ∧
        idx.suggested = some s) ∧
    ((∀ ex, fs.indexFiles (finalDirectoryNameFromBaseUrl bundle.siteIndex.baseUrl)
          doc.indexFile = some ex → ex.suggested = none ∨ ex.suggested = some []) →
      (generatedDocIndex bundle (buildUrlToLocalFile bundle) doc).suggested = none →
      ∃ idx, (writePreloadBundleToLocal bundle true now fs).indexFiles
          (finalDirectoryNameFromBaseUrl bundle.siteIndex.baseUrl) doc.indexFile = some idx ∧
        idx.suggested = some ((mapGetSugg (annotateCompute bundle.siteIndex.docs fun g =>
          (writeBundleMain bundle now fs).contentFiles
            (finalDirectoryNameFromBaseUrl bundle.siteIndex.baseUrl) g) doc.id).getD [])) := by
  obtain ⟨l1, l2, hsplit⟩ := List.append_of_mem hdoc
  have hkeys := nodup_key_split (·.indexFile) l1 l2 doc (hsplit ▸ hnd)
  have hmain := writeBundleMain_indexFiles_at bundle now fs l1 l2 doc hsplit hkeys.1 hkeys.2
  have hW : writePreloadBundleToLocal bundle true now fs
      = bundle.siteIndex.docs.foldl
          (annotateDocStep (finalDirectoryNameFromBaseUrl bundle.siteIndex.baseUrl)
            (annotateCompute bundle.siteIndex.docs fun g =>
              (writeBundleMain bundle now fs).contentFiles
                (finalDirectoryNameFromBaseUrl bundle.siteIndex.baseUrl) g))
          (writeBundleMain bundle now fs) := rfl
  constructor
  · intro ex s hex hsg hne
    have hparsed : (writeBundleMain bundle now fs).indexFiles
        (finalDirectoryNameFromBaseUrl bundle.siteIndex.baseUrl) doc.indexFile
        = some (mergeWithExistingDocIndex (some ex)
            (generatedDocIndex bundle (buildUrlToLocalFile bundle) doc)) := by
      rw [hmain, hex]
    rw [hW, hsplit]
    refine ⟨_, foldl_annotate_at _ _ l1 l2 doc _ _ hkeys.1 hkeys.2 hparsed, ?_⟩
    have hsugg : (mergeWithExistingDocIndex (some ex)
        (generatedDocIndex bundle (buildUrlToLocalFile bundle) doc)).suggested = some s := by
      simp [mergeWithExistingDocIndex, hsg]
    simp [hsugg, hne]
  · intro hnone hgens
    rw [hW, hsplit]
    refine ⟨_, foldl_annotate_at _ _ l1 l2 doc _ _ hkeys.1 hkeys.2 hmain, ?_⟩
    rcases hfs : fs.indexFiles (finalDirectoryNameFromBaseUrl bundle.siteIndex.baseUrl)
        doc.indexFile with _ | ex
    · simp [hfs, mergeWithExistingDocIndex, hgens]
    · rcases hnone ex hfs with h2 | h2
      · simp [hfs, mergeWithExistingDocIndex, h2, hgens]
      · simp [hfs, mergeWithExistingDocIndex, h2]

/-! Witness material for the suggestion round-trip: a one-document batch
whose document already has a non-empty stored `suggested` list. -/

def wrtDoc : PreloadDocSummary :=
  { id := "doc-00001", path := "/a", url := "https://example.com/a",
    docsetType := "generic", title := "A", description := "",
    contentFile := "a.md", indexFile := "a.index.json" }

def wrtSugg : PreloadSuggestedDoc :=
  { docId := "doc-00002", title := "B", path := "/b", url := "https://example.com/b",
    contentFile := "b.md", indexFile := "b.index.json",
    overlapScore := 1 / 2, sharedTerms := 9 }

def wrtBundle : PreloadBundle :=
  { siteIndex :=
      { version := 1, generatedAt := "T", baseUrl := "https://example.com/docs",
        totalDocs := 1, docs := [wrtDoc] },
    docIndexes := [("doc-00001",
      { doc := wrtDoc, headings := [], links := [], suggested := none })],
    docs := [{ path := "/a", url := "https://example.com/a",
               docsetType := "generic", content := "Body." }] }

def wrtFs : LocalFS :=
  { siteIndexFiles := fun _ => none,
    contentFiles := fun _ _ => none,
    indexFiles := fun s g =>
      if s = "example-com-docs" ∧ g = "a.index.json" then
        some { doc := wrtDoc, headings := [], links := [], suggested := some [wrtSugg] }
      else none,
    sitesIndex := none }

theorem suggested_preserved_and_recomputed_witness :
    ∃ idx, (writePreloadBundleToLocal wrtBundle true "T" wrtFs).indexFiles
        (finalDirectoryNameFromBaseUrl wrtBundle.siteIndex.baseUrl) wrtDoc.indexFile
        = some idx ∧
      idx.suggested = some [wrtSugg] :=
  (suggested_preserved_and_recomputed wrtBundle "T" wrtFs wrtDoc
      (List.mem_singleton.mpr rfl) (by simp [wrtBundle])).1
    { doc := wrtDoc, headings := [], links := [], suggested := some [wrtSugg] }
    [wrtSugg] rfl rfl (List.cons_ne_nil _ _)

end DocsApi
